import Mathlib

/-!
Wiki report generator of flashrom (`print_wiki.c`).

A shallow embedding of `print_wiki.c`.  Every `printf` call of the source is one
value of `Out` carrying the arguments of the call; `Out.render` substitutes them
into the format string of that call.  A printer is a computation in `Run`, which
records what was written to standard output and to standard error, in order, and
whether execution reached a division or modulo by zero.

C strings are Lean strings, one `Char` per C `char`.  A table terminated by a
sentinel record is the list of its records before the sentinel.  Record counters
(`int`, `unsigned int` in the source) are natural numbers, exact for tables of
fewer than 2^31 records.  The column count `cols` is a natural number; every call
site passes a positive constant.
-/

namespace PrintWiki

/-! ## Data consumed by the printers -/

/-- The numeric values of the five tags of `enum test_state`; the enum is declared
in `flash.h`, so the values are parameters of the model. -/
structure test_state_tags where
  OK : Int
  NT : Int
  BAD : Int
  DEP : Int
  NA : Int
deriving DecidableEq, Repr

/-- Case labels of one `switch` are pairwise different constants. -/
def test_state_tags.distinct (T : test_state_tags) : Prop :=
  [T.OK, T.NT, T.BAD, T.DEP, T.NA].Nodup

instance (T : test_state_tags) : Decidable T.distinct := by
  unfold test_state_tags.distinct; infer_instance

/-- One record of `chipset_enables` (`struct penable`); the two IDs are 16-bit
values. -/
structure penable where
  vendor_id : Nat
  device_id : Nat
  status : Int
  vendor_name : String
  device_name : String
deriving DecidableEq, Repr

/-- One record of `boards_known` or `laptops_known` (`struct board_info`);
`url` and `note` may be `NULL`. -/
structure board_info where
  vendor : String
  name : String
  working : Int
  url : Option String
  note : Option String
deriving DecidableEq, Repr

/-- The fields of `struct board_match` that the printer reads.  `lb_vendor` may be
`NULL`; `lb_part` is only read when `lb_vendor` is set. -/
structure board_match where
  vendor_name : String
  board_name : String
  lb_vendor : Option String
  lb_part : String
deriving DecidableEq, Repr

/-- The table `board_matches`: the records before the terminator, and the two
fields of the terminating record that the printer reads when its scan stops there. -/
structure board_match_table where
  entries : List board_match
  sentinel_lb_vendor : Option String
  sentinel_lb_part : String
deriving DecidableEq, Repr

/-- The member `tested` of `struct flashchip`. -/
structure tested where
  probe : Int
  read : Int
  erase : Int
  write : Int
deriving DecidableEq, Repr

/-- The member `voltage` of `struct flashchip`, in millivolt. -/
structure voltage where
  min : Nat
  max : Nat
deriving DecidableEq, Repr

/-- One record of `flashchips` (`struct flashchip`), with the fields the printer
reads; `total_size` is an `unsigned int`, `bustype` the value of the bus-type flags. -/
structure flashchip where
  vendor : String
  name : String
  bustype : Nat
  total_size : Nat
  tested : tested
  voltage : voltage
deriving DecidableEq, Repr

/-- One record of a device table of a programmer (`struct dev_entry`); the two IDs
are 16-bit values.  A device table is the list of the records of the array, read up
to the first record with `vendor_id == 0`. -/
structure dev_entry where
  vendor_id : Nat
  device_id : Nat
  status : Int
  vendor_name : String
  device_name : String
deriving DecidableEq, Repr

/-- The categories of `enum programmer_type`. -/
inductive programmer_type where
  | PCI
  | USB
  | OTHER
deriving DecidableEq, Repr

/-- One record of `programmer_table` (`struct programmer_entry`), with the fields the
printer reads.  The union `devs` is given by its two members: `dev` is read for the
entries of type `PCI` and `USB`, `note`, which may be `NULL`, for those of type `OTHER`. -/
structure programmer_entry where
  name : String
  type : programmer_type
  dev : List dev_entry
  note : Option String
deriving DecidableEq, Repr

/-! ## Constant text -/

/-- The text that opens an inner table (`th_start`). -/
def th_start : String :=
  "| valign=\"top\"|\n\n\x7b| border=\"0\" style=\"font-size: smaller\" valign=\"top\"\n|- bgcolor=\"#6699dd\"\n"

/-- Column headers of the chipset table. -/
def chipset_th : String :=
  "! align=\"left\" | Vendor\n! align=\"left\" | Southbridge\n! align=\"center\" | PCI IDs\n! align=\"center\" | Status\n\n"

/-- Column headers of the board table. -/
def board_th : String :=
  "! align=\"left\" | Vendor\n! align=\"left\" | Mainboard\n! align=\"left\" | Required option\n! align=\"center\" | Status\n\n"

/-- Introduction of the mainboard section. -/
def board_intro : String :=
  "\n== Supported mainboards ==\n\nIn general, it is very likely that flashrom works out of the box even if your mainboard is not listed below.\n\nThis is a list of mainboards where we have verified that they either do or do not need any special initialization to make flashrom work (given flashrom supports the respective chipset and flash chip), or that they do not yet work at all. If they do not work, support may or may not be added later.\n\nMainboards (or individual revisions) which don't appear in the list may or may not work (we don't know, someone has to give it a try). Please report any further verified mainboards on the [[Mailinglist|mailing list]].\n"

/-- Column headers of the chip table. -/
def chip_th : String :=
  "! align=\"left\" | Vendor\n! align=\"left\" | Device\n! align=\"center\" | Size [kB]\n! align=\"center\" | Type\n! align=\"center\" colspan=\"4\" | Status\n! align=\"center\" colspan=\"2\" | Voltage [V]\n\n|- bgcolor=\"#6699ff\"\n| colspan=\"4\" | &nbsp;\n| Probe\n| Read\n| Erase\n| Write\n| align=\"center\" | Min \n| align=\"center\" | Max\n\n"

/-- Introduction of the chip section. -/
def chip_intro : String :=
  "\n== Supported flash chips ==\n\nThe list below contains all chips that have some kind of explicit support added to flashrom and their last known test status. Newer SPI flash chips might work even without explicit support if they implement SFDP ([http://www.jedec.org/standards-documents/docs/jesd216 Serial Flash Discoverable Parameters - JESD216]). Flashrom will detect this automatically and inform you about it.\n\nThe names used below are designed to be as concise as possible and hence contain only the characters describing properties that are relevant to flashrom. Irrelevant characters specify attributes flashrom can not use or even detect by itself (e.g. the physical package) and have no effect on flashrom's operation. They are replaced by dots ('.') functioning as wildcards (like in Regular Expressions) or are completely omitted at the end of a name.\n"

/-- Column headers of the programmer tables. -/
def programmer_th : String :=
  "! align=\"left\" | Programmer\n! align=\"left\" | Vendor\n! align=\"left\" | Device\n! align=\"center\" | IDs\n! align=\"center\" | Status\n\n"

/-- Introduction of the laptop section. -/
def laptop_intro : String :=
  "\n== Supported laptops/notebooks ==\n\nIn general, flashing laptops is more difficult because laptops\n\n* often use the flash chip for stuff besides the BIOS,\n* often have special protection stuff which has to be handled by flashrom,\n* often use flash translation circuits which need drivers in flashrom.\n\n<div style=\"margin-top:0.5em; padding:0.5em 0.5em 0.5em 0.5em; background-color:#ff6666; align:right; border:1px solid #000000;\">\n'''IMPORTANT:''' At this point we recommend to '''not''' use flashrom on untested laptops unless you have a means to recover from a flashing that goes wrong (a working backup flash chip and/or good soldering skills).\n</div>\n"

/-! ## Conversions of `printf` -/

/-- Conversion `%d` of an `int`. -/
def fmt_d (v : Int) : String :=
  toString v

/-- The `int` that `%d` reads when it is passed an `unsigned int`. -/
def int_of_unsigned (u : Nat) : Int :=
  if u % 2 ^ 32 < 2 ^ 31 then ((u % 2 ^ 32 : Nat) : Int) else ((u % 2 ^ 32 : Nat) : Int) - 2 ^ 32

/-- Conversion `%04x`: lower-case hexadecimal digits, padded with zeros to four. -/
def fmt_04x (v : Nat) : String :=
  let ds := Nat.toDigits 16 v
  String.mk (List.replicate (4 - ds.length) '0' ++ ds)

/-- Conversion `%0.03f` of `mv / (double)1000`: the quotient has three decimals, so
the text is the integer part, a point, and the remainder padded to three digits. -/
def fmt_0_03f_milli (mv : Nat) : String :=
  let ds := Nat.toDigits 10 (mv % 1000)
  toString (mv / 1000) ++ "." ++ String.mk (List.replicate (3 - ds.length) '0' ++ ds)

/-- The call `snprintf(buf, size, ...)` whose complete text would be `text`: the
buffer receives the first `size - 1` characters and the call returns the length of
the complete text. -/
def snprintf (size : Nat) (text : String) : String × Int :=
  (String.mk (text.data.take (size - 1)), (text.length : Int))

/-- Modelled from the spec: `strcat_realloc` is defined outside this file; the spec
says the note text is appended to an accumulating footnote buffer. -/
def strcat_realloc (dest src : String) : String :=
  dest ++ src

/-! ## Output -/

/-- One `printf` call of the source with the values of its arguments. -/
inductive Out where
  | chipsets_head (enablescount : Nat)
  | th (column_th : String)
  | chipset_row (bgcolor vendor_name device_name : String) (vendor_id device_id : Nat)
      (template : String)
  | inner_end
  | chipsets_end
  | boards_intro
  | laptops_intro
  | boards_head (devicetype : String) (boardcount_good boardcount_nt boardcount_bad : Nat)
  | board_row (bgcolor vendor url_open url name url_close : String)
      (opt_a opt_b opt_c opt_d : String) (template : String)
  | note_ref (devicetype : String) (num_notes : Nat)
  | newline
  | boards_end
  | notes_block (notes : String)
  | chips_intro
  | chips_head (chipcount : Nat)
  | chip_row (bgcolor vendor name : String) (total_size : Int) (s : String)
      (t_probe t_read t_erase t_write : String) (vmin vmax : String)
  | chips_end
  | pci_head (pci_count : Nat)
  | usb_head (usb_count : Nat)
  | dev_bgcolor (bgcolor : String)
  | dev_rowspan (count : Nat) (name : String)
  | dev_row (vendor_name device_name : String) (vendor_id device_id : Nat) (template : String)
  | devs_end
  | other_head
  | other_th
  | other_bgcolor (bgcolor : String)
  | other_row (name note : String)
deriving DecidableEq, Repr

/-- The text a `printf` call writes. -/
def Out.render : Out → String
  | .chipsets_head enablescount =>
    "\n== Supported chipsets ==\n\nTotal amount of supported chipsets: '''"
      ++ fmt_d enablescount ++ "'''\n\n\x7b| border=\"0\" valign=\"top\"\n"
  | .th column_th => th_start ++ column_th
  | .chipset_row bgcolor vendor_name device_name vendor_id device_id template =>
    "|- bgcolor=\"#" ++ bgcolor ++ "\"\n| " ++ vendor_name ++ " || " ++ device_name
      ++ " || " ++ fmt_04x vendor_id ++ ":" ++ fmt_04x device_id
      ++ " || \x7b\x7b" ++ template ++ "\x7d\x7d\n"
  | .inner_end => "\n|\x7d\n\n"
  | .chipsets_end => "\n\n|\x7d\n"
  | .boards_intro => board_intro
  | .laptops_intro => laptop_intro
  | .boards_head devicetype boardcount_good boardcount_nt boardcount_bad =>
    "\n\nTotal amount of known good " ++ devicetype ++ ": '''" ++ fmt_d boardcount_good
      ++ "'''; Untested (e.g. user vanished before testing new code): '''"
      ++ fmt_d boardcount_nt ++ "'''; Not yet supported (i.e. known-bad): '''"
      ++ fmt_d boardcount_bad ++ "'''.\n\n\x7b| border=\"0\" valign=\"top\"\n"
  | .board_row bgcolor vendor url_open url name url_close opt_a opt_b opt_c opt_d template =>
    "|- bgcolor=\"#" ++ bgcolor ++ "\"\n| " ++ vendor ++ " || " ++ url_open ++ url ++ " "
      ++ name ++ url_close ++ " || " ++ opt_a ++ opt_b ++ opt_c ++ opt_d
      ++ " || \x7b\x7b" ++ template ++ "\x7d\x7d"
  | .note_ref devicetype num_notes =>
    " <span id=\"" ++ devicetype ++ "_ref" ++ fmt_d num_notes ++ "\"><sup>[[#" ++ devicetype
      ++ "_note" ++ fmt_d num_notes ++ "|" ++ fmt_d num_notes ++ "]]</sup></span>\n"
  | .newline => "\n"
  | .boards_end => "|\x7d\n"
  | .notes_block notes => "\n<small>\n" ++ notes ++ "</small>\n"
  | .chips_intro => chip_intro
  | .chips_head chipcount =>
    "\nTotal amount of supported chips: '''" ++ fmt_d chipcount
      ++ "'''\n\n\x7b| border=\"0\" valign=\"top\"\n"
  | .chip_row bgcolor vendor name total_size s t_probe t_read t_erase t_write vmin vmax =>
    "|- bgcolor=\"#" ++ bgcolor ++ "\"\n| " ++ vendor ++ " || " ++ name
      ++ " || align=\"right\" | " ++ fmt_d total_size ++ " || " ++ s
      ++ " || \x7b\x7b" ++ t_probe ++ "\x7d\x7d || \x7b\x7b" ++ t_read
      ++ "\x7d\x7d || \x7b\x7b" ++ t_erase ++ "\x7d\x7d || \x7b\x7b" ++ t_write
      ++ "\x7d\x7d|| " ++ vmin ++ " || " ++ vmax ++ " \n"
  | .chips_end => "|\x7d\n\n"
  | .pci_head pci_count =>
    "\n== PCI Devices ==\n\nTotal amount of supported PCI devices flashrom can use as a programmer: '''"
      ++ fmt_d pci_count ++ "'''\n\n\x7b" ++ th_start ++ programmer_th
  | .usb_head usb_count =>
    "\n== USB Devices ==\n\nTotal amount of supported USB devices flashrom can use as a programmer: '''"
      ++ fmt_d usb_count ++ "'''\n\n\x7b" ++ th_start ++ programmer_th
  | .dev_bgcolor bgcolor => "|- bgcolor=\"#" ++ bgcolor ++ "\"\n"
  | .dev_rowspan count name => "| rowspan=\"" ++ toString count ++ "\" | " ++ name ++ " |"
  | .dev_row vendor_name device_name vendor_id device_id template =>
    "| " ++ vendor_name ++ " || " ++ device_name ++ " || " ++ fmt_04x vendor_id ++ ":"
      ++ fmt_04x device_id ++ " || \x7b\x7b" ++ template ++ "\x7d\x7d\n"
  | .devs_end => "\n|\x7d\n\n|\x7d\n"
  | .other_head => "\n== Other programmers ==\n\n\x7b" ++ th_start
  | .other_th => "! align=\"left\" | Programmer\n! align=\"left\" | Note\n\n"
  | .other_bgcolor bgcolor => "|- bgcolor=\"#" ++ bgcolor ++ "\"\n"
  | .other_row name note => "| " ++ name ++ " || " ++ note

/-- One `fprintf(stderr, ...)` call of the source with the values of its arguments. -/
inductive Err where
  | footnote_truncated (num_notes : Nat) (devicetype : String) (ret : Int) (sizeof_tmp : Nat)
deriving DecidableEq, Repr

/-- The text a diagnostic writes. -/
def Err.render : Err → String
  | .footnote_truncated num_notes devicetype ret sizeof_tmp =>
    "Footnote text #" ++ fmt_d num_notes ++ " of " ++ devicetype ++ " truncated (ret="
      ++ fmt_d ret ++ ", sizeof(tmp)=" ++ toString sizeof_tmp ++ ")\n"

/-- The result of running a piece of the program: the calls that wrote to standard
output and to standard error, in order, and the value computed; `val = none` when
execution reached a division or modulo by zero, after which nothing is executed. -/
structure Run (α : Type) where
  out : List Out
  err : List Err
  val : Option α

/-- A computation that writes nothing. -/
def Run.ret {α : Type} (a : α) : Run α :=
  ⟨[], [], some a⟩

/-- Sequencing: the second part runs only if the first one did not stop. -/
def Run.and_then {α β : Type} (x : Run α) (f : α → Run β) : Run β :=
  match x.val with
  | none => ⟨x.out, x.err, none⟩
  | some a => ⟨x.out ++ (f a).out, x.err ++ (f a).err, (f a).val⟩

instance : Monad Run where
  pure := Run.ret
  bind := Run.and_then

/-- A `printf` call. -/
def printf (o : Out) : Run Unit :=
  ⟨[o], [], some ()⟩

/-- A `fprintf(stderr, ...)` call. -/
def fprintf_stderr (e : Err) : Run Unit :=
  ⟨[], [e], some ()⟩

/-- C division `a / b` of non-negative operands; undefined for `b = 0`. -/
def c_div (a b : Nat) : Run Nat :=
  if b = 0 then ⟨[], [], none⟩ else Run.ret (a / b)

/-- C remainder `a % b` of non-negative operands; undefined for `b = 0`. -/
def c_mod (a b : Nat) : Run Nat :=
  if b = 0 then ⟨[], [], none⟩ else Run.ret (a % b)

/-- Everything written to standard output, as one text. -/
def Run.stdout {α : Type} (r : Run α) : String :=
  String.join (r.out.map Out.render)

/-! ## The status badge -/

/-- `test_state_to_template`: the `switch` over the tags `OK`, `BAD`, `NA`, `DEP`,
with `NT` and `default` sharing the last branch. -/
def test_state_to_template (T : test_state_tags) (test_state : Int) : String :=
  if test_state = T.OK then "OK"
  else if test_state = T.BAD then "No"
  else if test_state = T.NA then "NA"
  else if test_state = T.DEP then "Dep"
  else "?3"

/-! ## Chipsets -/

/-- The rendering loop of `print_supported_chipsets_wiki`, from record `i` on;
`prev` is `e[i - 1]`.  Returns the final value of `i`. -/
def chipsets_loop (T : test_state_tags) (lines_per_col : Nat) :
    List penable → Nat → Option penable → Bool → Run Nat
  | [], i, _, _ => pure i
  | e :: rest, i, prev, color => do
    let m ← c_mod i lines_per_col
    if m = 0 then
      printf (.th chipset_th)
    let color := match prev with
      | some p => if i > 0 ∧ e.vendor_name ≠ p.vendor_name then !color else color
      | none => color
    printf (.chipset_row (if color then "eeeeee" else "dddddd") e.vendor_name e.device_name
      e.vendor_id e.device_id (test_state_to_template T e.status))
    let m ← c_mod i lines_per_col
    if m + 1 = lines_per_col then
      printf .inner_end
    chipsets_loop T lines_per_col rest (i + 1) (some e) color

/-- `print_supported_chipsets_wiki(cols)` on the table `chipset_enables`; the first
loop counts the records of the table. -/
def print_supported_chipsets_wiki (T : test_state_tags) (chipset_enables : List penable)
    (cols : Nat) : Run Unit := do
  let enablescount := chipset_enables.length
  let q ← c_div enablescount cols
  let r ← c_mod enablescount cols
  let lines_per_col := q + (if r > 0 then 1 else 0)
  printf (.chipsets_head enablescount)
  let i ← chipsets_loop T lines_per_col chipset_enables 0 none true
  let m ← c_mod i lines_per_col
  if m > 0 then
    printf .inner_end
  printf .chipsets_end

/-! ## Boards and laptops -/

/-- The three counters of the first loop of `print_supported_boards_wiki_helper`. -/
structure board_counts where
  boardcount_good : Nat
  boardcount_nt : Nat
  boardcount_bad : Nat
deriving DecidableEq, Repr

/-- The first loop of `print_supported_boards_wiki_helper`: each record raises one
of the three counters. -/
def count_boards (T : test_state_tags) : List board_info → board_counts → board_counts
  | [], c => c
  | b :: rest, c =>
    if b.working = T.OK then
      count_boards T rest { c with boardcount_good := c.boardcount_good + 1 }
    else if b.working = T.NT then
      count_boards T rest { c with boardcount_nt := c.boardcount_nt + 1 }
    else
      count_boards T rest { c with boardcount_bad := c.boardcount_bad + 1 }

/-- The sum `boardcount = boardcount_good + boardcount_nt + boardcount_bad`. -/
def board_counts.boardcount (c : board_counts) : Nat :=
  c.boardcount_good + c.boardcount_nt + c.boardcount_bad

/-- The `while` loop over `board_matches` for the board `(vendor, name)`, from index
`k` on: the index at which it stops, which is the length of the table when no record
matches (the terminator). -/
def scan_board_matches (vendor name : String) : List board_match → Nat → Nat
  | [], k => k
  | m :: rest, k =>
    if m.vendor_name ≠ vendor ∨ m.board_name ≠ name then
      scan_board_matches vendor name rest (k + 1)
    else k

/-- The field `b[k].lb_vendor`; `b[k]` is the terminator for `k` past the records. -/
def board_match_table.lb_vendor (b : board_match_table) (k : Nat) : Option String :=
  match b.entries[k]? with
  | some m => m.lb_vendor
  | none => b.sentinel_lb_vendor

/-- The field `b[k].lb_part`. -/
def board_match_table.lb_part (b : board_match_table) (k : Nat) : String :=
  match b.entries[k]? with
  | some m => m.lb_part
  | none => b.sentinel_lb_part

/-- The size of the buffer `tmp`. -/
def sizeof_tmp : Nat := 900 + 1

/-- The complete text of the footnote that `snprintf` formats into `tmp`. -/
def footnote_text (devicetype : String) (num_notes : Nat) (note : String) : String :=
  "<span id=\"" ++ devicetype ++ "_note" ++ fmt_d num_notes ++ "\">" ++ fmt_d num_notes
    ++ ". [[#" ++ devicetype ++ "_ref" ++ fmt_d num_notes ++ "|&#x2191;]]</span>"
    ++ " <nowiki>" ++ note ++ "</nowiki><br />\n"

/-- The statement `if (boards[i].note) ... else ...` of the rendering loop: returns
the new values of `num_notes` and `notes`. -/
def board_note (devicetype : String) (note : Option String) (num_notes : Nat)
    (notes : String) : Run (Nat × String) :=
  match note with
  | some text => do
    let num_notes := num_notes + 1
    printf (.note_ref devicetype num_notes)
    let tmp_ret := snprintf sizeof_tmp (footnote_text devicetype num_notes text)
    if tmp_ret.2 < 0 ∨ tmp_ret.2 ≥ (sizeof_tmp : Int) then
      fprintf_stderr (.footnote_truncated num_notes devicetype tmp_ret.2 sizeof_tmp)
    pure (num_notes, strcat_realloc notes tmp_ret.1)
  | none => do
    printf .newline
    pure (num_notes, notes)

/-- The variables that outlive the rendering loop of the board printer. -/
structure boards_vars where
  i : Nat
  num_notes : Nat
  notes : String
deriving DecidableEq, Repr

/-- The rendering loop of `print_supported_boards_wiki_helper`, from record `i` on;
`prev` is `boards[i - 1]`. -/
def boards_loop (T : test_state_tags) (b : board_match_table) (devicetype : String)
    (lines_per_col : Nat) :
    List board_info → Nat → Option board_info → Bool → Nat → String → Run boards_vars
  | [], i, _, _, num_notes, notes => pure ⟨i, num_notes, notes⟩
  | bd :: rest, i, prev, color, num_notes, notes => do
    let m ← c_mod i lines_per_col
    if m = 0 then
      printf (.th board_th)
    let color := match prev with
      | some p => if i > 0 ∧ bd.vendor ≠ p.vendor then !color else color
      | none => color
    let k := scan_board_matches bd.vendor bd.name b.entries 0
    printf (.board_row (if color then "eeeeee" else "dddddd")
      bd.vendor
      (if bd.url.isSome then "[" else "")
      (match bd.url with
        | some url => url
        | none => "")
      bd.name
      (if bd.url.isSome then "]" else "")
      (if (b.lb_vendor k).isSome then "-p internal:mainboard=" else "&mdash;")
      (match b.lb_vendor k with
        | some lb_vendor => lb_vendor
        | none => "")
      (if (b.lb_vendor k).isSome then ":" else "")
      (if (b.lb_vendor k).isSome then b.lb_part k else "")
      (test_state_to_template T bd.working))
    let n ← board_note devicetype bd.note num_notes notes
    let m ← c_mod i lines_per_col
    if m + 1 = lines_per_col then
      printf .inner_end
    boards_loop T b devicetype lines_per_col rest (i + 1) (some bd) color n.1 n.2

/-- `print_supported_boards_wiki_helper(devicetype, cols, boards)`, with the table
`board_matches`. -/
def print_supported_boards_wiki_helper (T : test_state_tags) (board_matches : board_match_table)
    (devicetype : String) (cols : Nat) (boards : List board_info) : Run Unit := do
  let c := count_boards T boards ⟨0, 0, 0⟩
  let boardcount := c.boardcount
  let q ← c_div boardcount cols
  let r ← c_mod boardcount cols
  let lines_per_col := q + (if r > 0 then 1 else 0)
  printf (.boards_head devicetype c.boardcount_good c.boardcount_nt c.boardcount_bad)
  let v ← boards_loop T board_matches devicetype lines_per_col boards 0 none true 0 ""
  let m ← c_mod v.i lines_per_col
  if m > 0 then
    printf .inner_end
  printf .boards_end
  if v.num_notes > 0 then
    printf (.notes_block v.notes)

/-- `print_supported_boards_wiki()`, on the tables `boards_known` and `laptops_known`. -/
def print_supported_boards_wiki (T : test_state_tags) (board_matches : board_match_table)
    (boards_known laptops_known : List board_info) : Run Unit := do
  printf .boards_intro
  print_supported_boards_wiki_helper T board_matches "boards" 2 boards_known
  printf .laptops_intro
  print_supported_boards_wiki_helper T board_matches "laptops" 1 laptops_known

/-! ## Flash chips -/

/-- The rendering loop of `print_supported_chips_wiki`, from record `i` on; `old` is
the record of the previous iteration.  `flashbuses_to_text` is the external
conversion of the bus type to a label.  The two `sprintf` calls write the formatted
text into the 6-byte buffers `vmin` and `vmax`, which hold it when the text has at most
5 characters, the case of every value below 10000; the loop takes the buffers to hold the
text, so a statement about the voltage cells is one about tables whose values stay below
10000. -/
def chips_loop (T : test_state_tags) (flashbuses_to_text : Nat → String) (lines_per_col : Nat) :
    List flashchip → Nat → Option flashchip → Int → Run Nat
  | [], i, _, _ => pure i
  | f :: rest, i, old, c => do
    let m ← c_mod i lines_per_col
    if m = 0 then
      printf (.th chip_th)
    let c := match old with
      | some o => if o.vendor ≠ f.vendor then (if c = 0 then 1 else 0) else c
      | none => c
    let s := flashbuses_to_text f.bustype
    let vmin := fmt_0_03f_milli f.voltage.min
    let vmax := fmt_0_03f_milli f.voltage.max
    printf (.chip_row (if c = 1 then "eeeeee" else "dddddd") f.vendor f.name
      (int_of_unsigned f.total_size) s
      (test_state_to_template T f.tested.probe)
      (test_state_to_template T f.tested.read)
      (test_state_to_template T f.tested.erase)
      (test_state_to_template T f.tested.write)
      (if f.voltage.min ≠ 0 then vmin else "?")
      (if f.voltage.max ≠ 0 then vmax else "?"))
    let m ← c_mod i lines_per_col
    if m + 1 = lines_per_col then
      printf .inner_end
    chips_loop T flashbuses_to_text lines_per_col rest (i + 1) (some f) c

/-- `print_supported_chips_wiki(cols)` on the table `flashchips`; the first loop
counts the records of the table. -/
def print_supported_chips_wiki (T : test_state_tags) (flashbuses_to_text : Nat → String)
    (flashchips : List flashchip) (cols : Nat) : Run Unit := do
  let chipcount := flashchips.length
  let q ← c_div chipcount cols
  let r ← c_mod chipcount cols
  let lines_per_col := q + (if r > 0 then 1 else 0)
  printf .chips_intro
  printf (.chips_head chipcount)
  let i ← chips_loop T flashbuses_to_text lines_per_col flashchips 0 none 1
  let m ← c_mod i lines_per_col
  if m > 0 then
    printf .inner_end
  printf .chips_end

/-! ## Programmer devices -/

/-- The loop of `count_supported_devs_wiki` from the record `devs[i]` on, `count`
being the number counted so far. -/
def count_devs_loop : List dev_entry → Nat → Nat
  | [], count => count
  | d :: rest, count => if d.vendor_id ≠ 0 then count_devs_loop rest (count + 1) else count

/-- `count_supported_devs_wiki(devs)`. -/
def count_supported_devs_wiki (devs : List dev_entry) : Nat :=
  count_devs_loop devs 0

/-- The loop of `print_supported_devs_wiki_helper` from the record `devs[i]` on. -/
def devs_helper_loop (T : test_state_tags) (name : String) (count : Nat) (c : Bool) :
    List dev_entry → Nat → Run Unit
  | [], _ => pure ()
  | d :: rest, i =>
    if d.vendor_id ≠ 0 then do
      printf (.dev_bgcolor (if c then "eeeeee" else "dddddd"))
      if i = 0 then
        printf (.dev_rowspan count name)
      printf (.dev_row d.vendor_name d.device_name d.vendor_id d.device_id
        (test_state_to_template T d.status))
      devs_helper_loop T name count c rest (i + 1)
    else pure ()

/-- `print_supported_devs_wiki_helper(prog)`.  The function-static flag `c`, which is 0
at program start and only ever negated, is passed in and its new value returned. -/
def print_supported_devs_wiki_helper (T : test_state_tags) (prog : programmer_entry)
    (c : Bool) : Run Bool := do
  let devs := prog.dev
  let count := count_supported_devs_wiki devs
  let c := !c
  devs_helper_loop T prog.name count c devs 0
  pure c

/-- The two counters of the first loop of `print_supported_devs_wiki`. -/
structure devs_counts where
  pci_count : Nat
  usb_count : Nat
deriving DecidableEq, Repr

/-- The first loop of `print_supported_devs_wiki`, over `programmer_table`. -/
def count_devs_by_type : List programmer_entry → devs_counts → devs_counts
  | [], n => n
  | prog :: rest, n =>
    match prog.type with
    | .USB =>
      count_devs_by_type rest
        { n with usb_count := n.usb_count + count_supported_devs_wiki prog.dev }
    | .PCI =>
      count_devs_by_type rest
        { n with pci_count := n.pci_count + count_supported_devs_wiki prog.dev }
    | .OTHER => count_devs_by_type rest n

/-- The second and the third loop of `print_supported_devs_wiki`: the helper is called
for every entry of the type `type` (`PCI` in the second loop, `USB` in the third), in
table order.  `c` is the static flag of the helper. -/
def devs_section_loop (T : test_state_tags) (type : programmer_type) :
    List programmer_entry → Bool → Run Bool
  | [], c => pure c
  | prog :: rest, c =>
    if prog.type = type then do
      let c ← print_supported_devs_wiki_helper T prog c
      devs_section_loop T type rest c
    else devs_section_loop T type rest c

/-- The last loop of `print_supported_devs_wiki`; `c` is the static flag declared in
the body of the loop, 0 at program start. -/
def other_loop : List programmer_entry → Bool → Run Bool
  | [], c => pure c
  | prog :: rest, c =>
    if prog.type = .OTHER then
      match prog.note with
      | some note => do
        let c := !c
        printf (.other_bgcolor (if c then "eeeeee" else "dddddd"))
        printf (.other_row prog.name note)
        other_loop rest c
      | none => other_loop rest c
    else other_loop rest c

/-- The two static flags of the device printers: the one of
`print_supported_devs_wiki_helper` and the one of the last loop of
`print_supported_devs_wiki`. -/
structure devs_statics where
  helper_c : Bool
  other_c : Bool
deriving DecidableEq, Repr

/-- `print_supported_devs_wiki()` on `programmer_table`, started with the static flags
`s`; returns the static flags it leaves. -/
def print_supported_devs_wiki (T : test_state_tags) (programmer_table : List programmer_entry)
    (s : devs_statics) : Run devs_statics := do
  let n := count_devs_by_type programmer_table ⟨0, 0⟩
  printf (.pci_head n.pci_count)
  let c ← devs_section_loop T .PCI programmer_table s.helper_c
  printf .devs_end
  printf (.usb_head n.usb_count)
  let c ← devs_section_loop T .USB programmer_table c
  printf .devs_end
  printf .other_head
  printf .other_th
  let other_c ← other_loop programmer_table s.other_c
  printf .devs_end
  pure ⟨c, other_c⟩

/-! ## Reading the output -/

/-- The part an output item plays in the layout of inner tables. -/
inductive Mark where
  | th
  | row
  | inner_end
deriving DecidableEq, Repr

/-- The header of an inner table opens it, a data row belongs to it, and the text
`|}` after a blank line closes it; all other items are outside the layout. -/
def Out.mark : Out → Option Mark
  | .th _ => some .th
  | .chipset_row .. => some .row
  | .board_row .. => some .row
  | .chip_row .. => some .row
  | .inner_end => some .inner_end
  | _ => none

/-- Reads a sequence of marks as inner tables: `cur` is the number of rows of the
inner table that is open, if one is.  The result is the number of rows of each inner
table, in order; there is none when a table is opened while one is open, a row or a
closing stands outside a table, or a table is left open at the end. -/
def inner_tables_from : List Mark → Option Nat → Option (List Nat)
  | [], none => some []
  | [], some _ => none
  | .th :: ms, none => inner_tables_from ms (some 0)
  | .th :: _, some _ => none
  | .row :: ms, some k => inner_tables_from ms (some (k + 1))
  | .row :: _, none => none
  | .inner_end :: ms, some k => (inner_tables_from ms none).map (fun ts => k :: ts)
  | .inner_end :: _, none => none

/-- The numbers of data rows of the inner tables of an output, in order. -/
def inner_tables (out : List Out) : Option (List Nat) :=
  inner_tables_from (out.filterMap Out.mark) none

/-- The number of inner tables an output opens. -/
def tables_opened (out : List Out) : Nat :=
  (out.filterMap Out.mark).count Mark.th

/-- Vendor and name printed in a data row. -/
def Out.row_key : Out → Option (String × String)
  | .chipset_row _ vendor_name device_name _ _ _ => some (vendor_name, device_name)
  | .board_row _ vendor _ _ name _ _ _ _ _ _ => some (vendor, name)
  | .chip_row _ vendor name _ _ _ _ _ _ _ _ => some (vendor, name)
  | _ => none

/-- Vendor and colour token printed in a data row. -/
def Out.row_vendor_bgcolor : Out → Option (String × String)
  | .chipset_row bgcolor vendor_name _ _ _ _ => some (vendor_name, bgcolor)
  | .board_row bgcolor vendor _ _ _ _ _ _ _ _ _ => some (vendor, bgcolor)
  | .chip_row bgcolor vendor _ _ _ _ _ _ _ _ _ => some (vendor, bgcolor)
  | _ => none

/-- Rounded-up quotient. -/
def ceil_div (n d : Nat) : Nat :=
  (n + d - 1) / d

/-- The marks the rendering loops produce for `k` records from index `i` on, with
`L` lines per column. -/
def layout (L : Nat) : Nat → Nat → List Mark
  | _, 0 => []
  | i, k + 1 =>
    (if i % L = 0 then [Mark.th] else []) ++ [Mark.row]
      ++ (if i % L + 1 = L then [Mark.inner_end] else []) ++ layout L (i + 1) k

/-- Row counts of the inner tables when `r` rows stand in the open table and `k`
records remain. -/
def chunks (L : Nat) : Nat → Nat → List Nat
  | r, 0 => if r > 0 then [r] else []
  | r, k + 1 => if r + 1 = L then L :: chunks L 0 k else chunks L (r + 1) k

/-- The marks of a complete rendering of `n` records with `L` lines per column. -/
def full_layout (L n : Nat) : List Mark :=
  layout L 0 n ++ (if n % L > 0 then [Mark.inner_end] else [])

/-- The colour rule for two adjacent rows, each given by its vendor and its colour
token: the tokens differ exactly when the vendors differ. -/
def color_rule (a b : String × String) : Prop :=
  a.2 ≠ b.2 ↔ a.1 ≠ b.1

instance (a b : String × String) : Decidable (color_rule a b) := by
  unfold color_rule; infer_instance

/-- The collection name and the number of an inline footnote anchor. -/
def Out.anchor : Out → Option (String × Nat)
  | .note_ref devicetype num_notes => some (devicetype, num_notes)
  | _ => none

/-- For every board row of an output, in order: the vendor and name printed in the
row, and the number of the footnote anchor that directly follows the row, if one does. -/
def row_anchors : List Out → List ((String × String) × Option Nat)
  | [] => []
  | o :: rest =>
    match o with
    | .board_row _ vendor _ _ name _ _ _ _ _ _ =>
      ((vendor, name), (rest.head?.bind Out.anchor).map Prod.snd) :: row_anchors rest
    | _ => row_anchors rest

/-- The text of a footnote section. -/
def Out.notes_text : Out → Option String
  | .notes_block notes => some notes
  | _ => none

/-- The text of the cell `Required option` of a board row. -/
def Out.required_option : Out → Option String
  | .board_row _ _ _ _ _ _ opt_a opt_b opt_c opt_d _ => some (opt_a ++ opt_b ++ opt_c ++ opt_d)
  | _ => none

/-- The first record of `board_matches`, in table order, whose vendor name and board
name are those of the board. -/
def first_match (b : board_match_table) (vendor name : String) : Option board_match :=
  b.entries.find? (fun m => m.vendor_name = vendor ∧ m.board_name = name)

/-- The notes of the records that carry one, in collection order. -/
def notes_of (boards : List board_info) : List String :=
  boards.filterMap (fun bd => bd.note)

/-- The footnote blocks for the given notes, numbered from `m + 1` on, each as
`snprintf` leaves it in `tmp`. -/
def footnote_blocks (devicetype : String) (m : Nat) (notes : List String) : List String :=
  (notes.enumFrom (m + 1)).map
    (fun p => (snprintf sizeof_tmp (footnote_text devicetype p.1 p.2)).1)

/-- The footnote buffer after the given blocks were appended to it, in order. -/
def append_blocks (notes : String) (blocks : List String) : String :=
  blocks.foldl strcat_realloc notes

/-- A board row of the output, as printed. -/
def Out.board_row_item : Out → Option Out
  | .board_row bgcolor vendor url_open url name url_close opt_a opt_b opt_c opt_d template =>
    some (.board_row bgcolor vendor url_open url name url_close opt_a opt_b opt_c opt_d template)
  | _ => none

/-- The row that the rendering loop of the board printer prints for the record `bd`
when the colour token is `bgcolor`. -/
def board_row_of (T : test_state_tags) (b : board_match_table) (bgcolor : String)
    (bd : board_info) : Out :=
  .board_row bgcolor
    bd.vendor
    (if bd.url.isSome then "[" else "")
    (match bd.url with
      | some url => url
      | none => "")
    bd.name
    (if bd.url.isSome then "]" else "")
    (if (b.lb_vendor (scan_board_matches bd.vendor bd.name b.entries 0)).isSome then
      "-p internal:mainboard=" else "&mdash;")
    (match b.lb_vendor (scan_board_matches bd.vendor bd.name b.entries 0) with
      | some lb_vendor => lb_vendor
      | none => "")
    (if (b.lb_vendor (scan_board_matches bd.vendor bd.name b.entries 0)).isSome then ":" else "")
    (if (b.lb_vendor (scan_board_matches bd.vendor bd.name b.entries 0)).isSome then
      b.lb_part (scan_board_matches bd.vendor bd.name b.entries 0) else "")
    (test_state_to_template T bd.working)

/-- The text `part` occurs in `text`. -/
def contains_text (text part : String) : Prop :=
  part.data <:+: text.data

instance (text part : String) : Decidable (contains_text text part) := by
  unfold contains_text; infer_instance

/-! ## Sample inputs -/

/-- Sample tag values: the tags numbered in the order `OK`, `NT`, `BAD`, `DEP`, `NA`. -/
def sample_tags : test_state_tags :=
  ⟨0, 1, 2, 3, 4⟩

/-- A sample chip record of the given vendor. -/
def sample_chip (vendor : String) : flashchip :=
  ⟨vendor, "chip", 0, 512, ⟨0, 0, 1, 1⟩, ⟨2700, 3600⟩⟩

/-- Five sample chips of three vendors. -/
def sample_chips : List flashchip :=
  [sample_chip "A", sample_chip "A", sample_chip "B", sample_chip "C", sample_chip "C"]

/-- A sample chipset record of the given vendor. -/
def sample_penable (vendor_name : String) : penable :=
  ⟨0x8086, 0x1234, 0, vendor_name, "bridge"⟩

/-- Four sample chipsets of two vendors. -/
def sample_chipsets : List penable :=
  [sample_penable "A", sample_penable "B", sample_penable "B", sample_penable "B"]

/-- A sample table `board_matches`: the second record is the first one for the board
`X1` of `Acme`, the third one matches it too. -/
def sample_matches : board_match_table :=
  ⟨[⟨"Foo", "X1", some "foo", "bar"⟩, ⟨"Acme", "X1", some "acme", "x1"⟩,
    ⟨"Acme", "X1", some "other", "part"⟩, ⟨"Acme", "X3", none, ""⟩], none, ""⟩

/-- The board of the rendering scenario: vendor `Acme`, name `X1`, a URL, no note,
status `OK`. -/
def scenario_board (T : test_state_tags) : board_info :=
  ⟨"Acme", "X1", T.OK, some "http://x", none⟩

/-- Three sample boards; the second and the third carry a note. -/
def sample_boards : List board_info :=
  [scenario_board sample_tags, ⟨"Acme", "X2", 1, none, some "first note"⟩,
    ⟨"Bar", "X3", 2, none, some "second note"⟩]

/-- A sample conversion of the bus type to text. -/
def sample_flashbuses_to_text (bustype : Nat) : String :=
  if bustype = 0 then "SPI" else "Parallel"

/-! ## Reading the output of the device printers -/

/-- The records of a device table before its terminator. -/
def devs_before_sentinel (devs : List dev_entry) : List dev_entry :=
  devs.takeWhile (fun d => d.vendor_id ≠ 0)

/-- The data cells of the row of a device. -/
def dev_row_of (T : test_state_tags) (d : dev_entry) : Out :=
  .dev_row d.vendor_name d.device_name d.vendor_id d.device_id
    (test_state_to_template T d.status)

/-- The rows of one programmer with the devices `ds`, all with the colour token
`bgcolor`: the first row holds the cell with the programmer name, spanning as many
rows as there are devices, and every further row has the data cells only. -/
def group_rows (T : test_state_tags) (name bgcolor : String) : List dev_entry → List Out
  | [] => []
  | d :: rest =>
    Out.dev_bgcolor bgcolor :: Out.dev_rowspan (rest.length + 1) name :: dev_row_of T d
      :: rest.flatMap (fun d => [Out.dev_bgcolor bgcolor, dev_row_of T d])

/-- The colour token for a value of a colour flag. -/
def bgcolor_of (c : Bool) : String :=
  if c then "eeeeee" else "dddddd"

/-- A data row of a device. -/
def Out.is_dev_row : Out → Bool
  | .dev_row .. => true
  | _ => false

/-- A colour flag after it was negated `n` times. -/
def toggled (n : Nat) (c : Bool) : Bool :=
  if n % 2 = 0 then c else !c

/-- The entries of a programmer table of one type, in table order. -/
def entries_of_type (type : programmer_type) (programmer_table : List programmer_entry) :
    List programmer_entry :=
  programmer_table.filter (fun prog => prog.type = type)

/-- The number of device rows of the entries of one type: the sum of the numbers of
records before the terminator of their device tables. -/
def devices_of_type (type : programmer_type) (programmer_table : List programmer_entry) : Nat :=
  ((entries_of_type type programmer_table).map
    (fun prog => (devs_before_sentinel prog.dev).length)).sum

/-- The rows of the programmers `progs`, called one after the other with the static
flag `c` at the first call: the `k`-th programmer, counted from 0, has the colour of
the flag negated `k + 1` times. -/
def groups_rows (T : test_state_tags) (progs : List programmer_entry) (c : Bool) : List Out :=
  (progs.enumFrom 0).flatMap (fun p =>
    group_rows T p.2.name (bgcolor_of (toggled (p.1 + 1) c)) (devs_before_sentinel p.2.dev))

/-- Name and note of the entries of type `OTHER` that carry a note, in table order. -/
def noted_others (programmer_table : List programmer_entry) : List (String × String) :=
  programmer_table.filterMap (fun prog =>
    if prog.type = .OTHER then prog.note.map (fun note => (prog.name, note)) else none)

/-- The rows of the table of other programmers for the given names and notes, with the
static flag `c` at the start: the `k`-th row, counted from 0, has the colour of the
flag negated `k + 1` times. -/
def other_rows (noted : List (String × String)) (c : Bool) : List Out :=
  (noted.enumFrom 0).flatMap (fun p =>
    [Out.other_bgcolor (bgcolor_of (toggled (p.1 + 1) c)), Out.other_row p.2.1 p.2.2])

/-- An item of a device row: the colour line, the cell of the programmer name, or the
data cells. -/
def Out.is_dev_item : Out → Bool
  | .dev_bgcolor _ => true
  | .dev_rowspan _ _ => true
  | .dev_row .. => true
  | _ => false

/-- The cell of the programmer name: the number of rows it spans and the name. -/
def Out.rowspan : Out → Option (Nat × String)
  | .dev_rowspan count name => some (count, name)
  | _ => none

/-- The colour token of the colour line of a device row. -/
def Out.dev_color : Out → Option String
  | .dev_bgcolor bgcolor => some bgcolor
  | _ => none

/-! ## Sample programmer table -/

/-- A sample device record. -/
def sample_dev (vendor_id : Nat) (device_name : String) : dev_entry :=
  ⟨vendor_id, 0x0001, 0, "Vendor", device_name⟩

/-- A sample programmer table: a PCI programmer with two devices before the terminator
and a record after it, a programmer with a note, a USB programmer with one device, a
PCI programmer without devices, a second programmer with a note, and one without. -/
def sample_programmers : List programmer_entry :=
  [⟨"nic", .PCI, [sample_dev 0x10ec "a", sample_dev 0x10ec "b", sample_dev 0 "end",
      sample_dev 0x8086 "behind"], none⟩,
    ⟨"dummy", .OTHER, [], some "Dummy device"⟩,
    ⟨"usb", .USB, [sample_dev 0x0403 "c"], none⟩,
    ⟨"bare", .PCI, [], none⟩,
    ⟨"serprog", .OTHER, [], some "Serial flasher"⟩,
    ⟨"plain", .OTHER, [], none⟩]

/-- The colour token of the colour line of a row of the table of other programmers. -/
def Out.other_color : Out → Option String
  | .other_bgcolor bgcolor => some bgcolor
  | _ => none

/-- Name and note printed in a row of the table of other programmers. -/
def Out.other_cells : Out → Option (String × String)
  | .other_row name note => some (name, note)
  | _ => none

/-- The iteration indices, over the programmer table, of the entries that are rendered
in the table of other programmers. -/
def noted_other_indices (programmer_table : List programmer_entry) : List Nat :=
  ((programmer_table.enumFrom 0).filter
    (fun p => p.2.type = .OTHER ∧ p.2.note.isSome)).map Prod.fst

/-- The output up to the header of the table of other programmers: the PCI and the USB
section. -/
def device_section (out : List Out) : List Out :=
  out.takeWhile (fun o => o ≠ Out.other_head)

/-- The output from the header of the table of other programmers on. -/
def other_section (out : List Out) : List Out :=
  out.dropWhile (fun o => o ≠ Out.other_head)

/-- The static flags a run of `print_supported_devs_wiki` leaves, with which the next
run starts. -/
def statics_after (T : test_state_tags) (programmer_table : List programmer_entry)
    (s : devs_statics) : devs_statics :=
  match (print_supported_devs_wiki T programmer_table s).val with
  | some s1 => s1
  | none => s

/-- A programmer table in which a PCI programmer stands between two programmers with a
note. -/
def sample_others : List programmer_entry :=
  [⟨"dummy", .OTHER, [], some "Dummy device"⟩,
    ⟨"nic", .PCI, [sample_dev 0x10ec "a"], none⟩,
    ⟨"serprog", .OTHER, [], some "Serial flasher"⟩]

/-- A programmer table with one PCI programmer that has no device. -/
def sample_bare : List programmer_entry :=
  [⟨"bare", .PCI, [sample_dev 0 "end"], none⟩]

/-- The size of the buffer `vmin`. -/
def sizeof_vmin : Nat := 6

/-- The size of the buffer `vmax`. -/
def sizeof_vmax : Nat := 6

/-- The call `sprintf(buf, ...)` that formats `text` stays inside a buffer of `size`
bytes: it writes the characters of the text, one byte each, and a terminating zero. -/
def sprintf_fits (size : Nat) (text : String) : Prop :=
  text.length + 1 ≤ size

instance (size : Nat) (text : String) : Decidable (sprintf_fits size text) :=
  inferInstanceAs (Decidable (text.length + 1 ≤ size))

/-- The minimum-voltage and the maximum-voltage cell of a chip row. -/
def Out.voltage_cells : Out → Option (String × String)
  | .chip_row _ _ _ _ _ _ _ _ _ vmin vmax => some (vmin, vmax)
  | _ => none

/-- The value `mv / 1000` in volts written with exactly three decimals, as the
specification words it: the whole volts, a point, and the digits of the tenths, the
hundredths and the thousandths. -/
def volts_three_decimals (mv : Nat) : String :=
  toString (mv / 1000) ++ "."
    ++ String.mk [Nat.digitChar (mv / 100 % 10), Nat.digitChar (mv / 10 % 10),
      Nat.digitChar (mv % 10)]

/-- The rule of the specification for the two voltage cells of the chip `f`. -/
def voltage_rule (f : flashchip) (cells : String × String) : Prop :=
  (cells.1 = "?" ↔ f.voltage.min = 0)
  ∧ (f.voltage.min ≠ 0 → cells.1 = volts_three_decimals f.voltage.min)
  ∧ (cells.2 = "?" ↔ f.voltage.max = 0)
  ∧ (f.voltage.max ≠ 0 → cells.2 = volts_three_decimals f.voltage.max)

/-- Four sample chips with each combination of a known and an unknown voltage. -/
def sample_volt_chips : List flashchip :=
  [⟨"A", "a", 0, 512, ⟨0, 0, 1, 1⟩, ⟨2700, 3600⟩⟩, ⟨"A", "b", 0, 512, ⟨0, 0, 1, 1⟩, ⟨0, 3600⟩⟩,
    ⟨"B", "c", 0, 512, ⟨0, 0, 1, 1⟩, ⟨1650, 0⟩⟩, ⟨"B", "d", 0, 512, ⟨0, 0, 1, 1⟩, ⟨0, 0⟩⟩]

/-- The diagnostics on `stderr` for the given notes, numbered from `m + 1` on: one for
each note whose complete footnote text has at least `sizeof(tmp)` characters. -/
def footnote_diagnostics (devicetype : String) (m : Nat) (notes : List String) : List Err :=
  (notes.enumFrom (m + 1)).filterMap (fun p =>
    if sizeof_tmp ≤ (footnote_text devicetype p.1 p.2).length then
      some (Err.footnote_truncated p.1 devicetype
        ((footnote_text devicetype p.1 p.2).length : Int) sizeof_tmp)
    else none)

/-- Two board records that agree in every field but the text of the note, which both
have or both lack. -/
def same_but_note_text (x y : board_info) : Prop :=
  x.vendor = y.vendor ∧ x.name = y.name ∧ x.working = y.working ∧ x.url = y.url
  ∧ x.note.isSome = y.note.isSome

instance (x y : board_info) : Decidable (same_but_note_text x y) := by
  unfold same_but_note_text
  infer_instance

/-- The report without the block of footnotes. -/
def report_without_notes (out : List Out) : List Out :=
  out.filter (fun o => o.notes_text.isNone)

/-- A note of 1000 characters. -/
def long_note : String :=
  String.mk (List.replicate 1000 'x')

/-- Three sample boards; the note of the first one is too long for `tmp`. -/
def sample_long_boards : List board_info :=
  [⟨"Acme", "X2", 1, none, some long_note⟩, scenario_board sample_tags,
    ⟨"Bar", "X3", 2, none, some "second note"⟩]

/-- The boards of `sample_long_boards` with a short first note. -/
def sample_short_boards : List board_info :=
  [⟨"Acme", "X2", 1, none, some "first note"⟩, scenario_board sample_tags,
    ⟨"Bar", "X3", 2, none, some "second note"⟩]

/-! ## Sequencing lemmas -/

@[simp] theorem run_bind_eq {α β : Type} (x : Run α) (f : α → Run β) :
    x >>= f = Run.and_then x f := rfl

@[simp] theorem run_pure_eq {α : Type} (a : α) : (pure a : Run α) = Run.ret a := rfl

@[simp] theorem and_then_ret {α β : Type} (a : α) (f : α → Run β) :
    Run.and_then (Run.ret a) f = f a := by
  simp [Run.and_then, Run.ret]

@[simp] theorem and_then_printf {β : Type} (o : Out) (f : Unit → Run β) :
    Run.and_then (printf o) f = ⟨o :: (f ()).out, (f ()).err, (f ()).val⟩ := by
  simp [Run.and_then, printf]

theorem ite_printf {β : Type} (c : Prop) [Decidable c] (o : Out) (r : Run β) :
    (if c then (⟨o :: r.out, r.err, r.val⟩ : Run β) else r)
      = ⟨(if c then [o] else []) ++ r.out, r.err, r.val⟩ := by
  split_ifs <;> simp

theorem ite_printf_mk {β : Type} (c : Prop) [Decidable c] (o : Out) (out : List Out)
    (err : List Err) (val : Option β) :
    (if c then (⟨o :: out, err, val⟩ : Run β) else ⟨out, err, val⟩)
      = ⟨(if c then [o] else []) ++ out, err, val⟩ := by
  split_ifs <;> simp

theorem c_mod_pos (a b : Nat) (h : 0 < b) : c_mod a b = Run.ret (a % b) := by
  simp [c_mod, Nat.pos_iff_ne_zero.mp h]

theorem c_div_pos (a b : Nat) (h : 0 < b) : c_div a b = Run.ret (a / b) := by
  simp [c_div, Nat.pos_iff_ne_zero.mp h]

theorem c_mod_zero (a : Nat) : c_mod a 0 = ⟨[], [], none⟩ := by
  simp [c_mod]

theorem and_then_stop {α β : Type} (f : α → Run β) :
    Run.and_then (⟨[], [], none⟩ : Run α) f = ⟨[], [], none⟩ := by
  simp [Run.and_then]

theorem filterMap_ite_singleton {α β : Type} (f : α → Option β) (c : Prop) [Decidable c]
    (a : α) :
    List.filterMap f (if c then [a] else []) = if c then List.filterMap f [a] else [] := by
  split_ifs <;> rfl

/-! ## Arithmetic of the column layout -/

theorem lines_per_col_eq (n cols : Nat) (h : 1 ≤ cols) :
    n / cols + (if n % cols > 0 then 1 else 0) = ceil_div n cols := by
  unfold ceil_div
  have hd := Nat.div_add_mod n cols
  have hm := Nat.mod_lt n (show cols > 0 by omega)
  symm
  apply Nat.div_eq_of_lt_le
  · split_ifs with hr
    · have e : (n / cols + 1) * cols = cols * (n / cols) + cols := by ring
      rw [e]; omega
    · have e : (n / cols + 0) * cols = cols * (n / cols) := by ring
      rw [e]; omega
  · split_ifs with hr
    · have e : (n / cols + 1 + 1) * cols = cols * (n / cols) + cols + cols := by ring
      rw [e]; omega
    · have e : (n / cols + 0 + 1) * cols = cols * (n / cols) + cols := by ring
      rw [e]; omega

theorem ceil_div_pos (n cols : Nat) (hn : 1 ≤ n) (h : 1 ≤ cols) : 1 ≤ ceil_div n cols := by
  unfold ceil_div
  exact (Nat.one_le_div_iff (by omega)).mpr (by omega)

theorem le_ceil_div_mul (n cols : Nat) (h : 1 ≤ cols) : n ≤ ceil_div n cols * cols := by
  rw [← lines_per_col_eq n cols h]
  have hd := Nat.div_add_mod n cols
  have hm := Nat.mod_lt n (show cols > 0 by omega)
  split_ifs with hr
  · have e : (n / cols + 1) * cols = cols * (n / cols) + cols := by ring
    rw [e]; omega
  · have e : (n / cols + 0) * cols = cols * (n / cols) := by ring
    rw [e]; omega

theorem succ_mod_of_lt (i L : Nat) (h : i % L + 1 < L) : (i + 1) % L = i % L + 1 := by
  have h1 : 1 % L = 1 := Nat.mod_eq_of_lt (by omega)
  rw [Nat.add_mod, h1, Nat.mod_eq_of_lt h]

theorem succ_mod_of_eq (i L : Nat) (h : i % L + 1 = L) : (i + 1) % L = 0 := by
  have hd := Nat.div_add_mod i L
  have : i + 1 = L * (i / L + 1) := by rw [Nat.mul_add]; omega
  rw [this]; exact Nat.mul_mod_right _ _

theorem inner_tables_from_layout (L : Nat) (hL : 0 < L) (k : Nat) :
    ∀ i : Nat,
      inner_tables_from (layout L i k ++ (if (i + k) % L > 0 then [Mark.inner_end] else []))
        (if i % L = 0 then none else some (i % L)) = some (chunks L (i % L) k) := by
  induction k with
  | zero =>
    intro i
    by_cases h : i % L = 0
    · simp [layout, chunks, h, inner_tables_from]
    · have : i % L > 0 := by omega
      simp [layout, chunks, h, this, inner_tables_from]
  | succ k ih =>
    intro i
    have hi := ih (i + 1)
    have hlt := Nat.mod_lt i hL
    rw [show i + (k + 1) = i + 1 + k by omega]
    by_cases h2 : i % L + 1 = L
    · rw [succ_mod_of_eq i L h2] at hi
      simp only [if_true] at hi
      by_cases h1 : i % L = 0
      · simp only [layout, chunks, if_pos h1, if_pos h2, List.append_assoc, List.singleton_append,
          List.cons_append, List.nil_append, inner_tables_from, hi, Option.map_some']
        rw [h1] at h2; rw [← h2]
      · simp only [layout, chunks, if_neg h1, if_pos h2, List.append_assoc, List.singleton_append,
          List.cons_append, List.nil_append, inner_tables_from, hi, Option.map_some']
        rw [h2]
    · have h3 := succ_mod_of_lt i L (by omega)
      rw [h3] at hi
      simp only [Nat.succ_ne_zero, if_false] at hi
      by_cases h1 : i % L = 0
      · simp only [layout, chunks, if_pos h1, if_neg h2, List.append_assoc, List.singleton_append,
          List.cons_append, List.nil_append, inner_tables_from]
        rw [h1] at hi; rw [h1]; exact hi
      · simp only [layout, chunks, if_neg h1, if_neg h2, List.append_assoc, List.singleton_append,
          List.cons_append, List.nil_append, inner_tables_from]
        exact hi

theorem chunks_eq (L : Nat) (hL : 0 < L) (k : Nat) :
    ∀ r : Nat, r < L →
      chunks L r k = List.replicate ((r + k) / L) L
        ++ (if (r + k) % L = 0 then [] else [(r + k) % L]) := by
  induction k with
  | zero =>
    intro r hr
    simp only [chunks, Nat.add_zero, Nat.div_eq_of_lt hr, Nat.mod_eq_of_lt hr,
      List.replicate_zero, List.nil_append]
    by_cases h : r = 0 <;> simp [h]
  | succ k ih =>
    intro r hr
    by_cases h : r + 1 = L
    · have e : r + (k + 1) = k + L := by omega
      simp only [chunks, if_pos h, ih 0 hL, Nat.zero_add, e, Nat.add_div_right _ hL,
        Nat.add_mod_right, List.replicate_succ, List.cons_append]
    · have e : r + (k + 1) = r + 1 + k := by omega
      simp only [chunks, if_neg h, ih (r + 1) (by omega), e]

theorem and_then_of_val {α β : Type} (x : Run α) (f : α → Run β) (a : α) (h : x.val = some a) :
    Run.and_then x f = ⟨x.out ++ (f a).out, x.err ++ (f a).err, (f a).val⟩ := by
  simp [Run.and_then, h]

theorem inner_tables_from_full_layout (L : Nat) (hL : 0 < L) (n : Nat) :
    inner_tables_from (full_layout L n) none
      = some (List.replicate (n / L) L ++ (if n % L = 0 then [] else [n % L])) := by
  have h := inner_tables_from_layout L hL n 0
  simp only [Nat.zero_mod, if_true, Nat.zero_add] at h
  rw [full_layout, h, chunks_eq L hL n 0 hL, Nat.zero_add]

theorem count_th_of_inner_tables (ms : List Mark) :
    ∀ (cur : Option Nat) (ts : List Nat), inner_tables_from ms cur = some ts →
      ms.count Mark.th + (if cur.isSome then 1 else 0) = ts.length := by
  induction ms with
  | nil =>
    intro cur ts h
    cases cur <;> simp_all [inner_tables_from]
  | cons m ms ih =>
    intro cur ts h
    cases m <;> cases cur <;> simp only [inner_tables_from] at h
    · have := ih _ _ h; simp_all
    · exact absurd h (by simp)
    · exact absurd h (by simp)
    · have := ih _ _ h; simp_all
    · exact absurd h (by simp)
    · cases h2 : inner_tables_from ms none with
      | none => simp [h2] at h
      | some ts2 =>
        simp [h2] at h
        have := ih _ _ h2
        subst h; simp_all

theorem ceil_div_eq (n L : Nat) (hL : 0 < L) :
    ceil_div n L = n / L + (if n % L = 0 then 0 else 1) := by
  rw [← lines_per_col_eq n L hL]
  by_cases h : n % L = 0
  · simp [h]
  · have : n % L > 0 := by omega
    simp [h, this]

theorem ceil_div_ceil_div_le (n cols : Nat) (h : 1 ≤ cols) (hn : 1 ≤ n) :
    ceil_div n (ceil_div n cols) ≤ cols := by
  have hL := ceil_div_pos n cols hn h
  have hle := le_ceil_div_mul n cols h
  generalize ceil_div n cols = L at hL hle
  unfold ceil_div
  apply Nat.le_of_lt_succ
  rw [Nat.div_lt_iff_lt_mul hL]
  have e : (cols + 1) * L = L * cols + L := by ring
  rw [e]; omega

theorem tables_list_props (n L : Nat) (hL : 0 < L) :
    (∀ t ∈ List.replicate (n / L) L ++ (if n % L = 0 then [] else [n % L]), t ≤ L)
    ∧ (List.replicate (n / L) L ++ (if n % L = 0 then [] else [n % L])).sum = n
    ∧ (List.replicate (n / L) L ++ (if n % L = 0 then [] else [n % L])).length = ceil_div n L := by
  have hm := Nat.mod_lt n hL
  have hd := Nat.div_add_mod n L
  refine ⟨?_, ?_, ?_⟩
  · intro t ht
    rw [List.mem_append] at ht
    rcases ht with ht | ht
    · rw [List.eq_of_mem_replicate ht]
    · split_ifs at ht with h0
      · simp at ht
      · simp at ht; omega
  · rw [List.sum_append, List.sum_replicate]
    split_ifs with h0
    · simp; rw [Nat.mul_comm]; omega
    · simp; rw [Nat.mul_comm]; omega
  · rw [List.length_append, List.length_replicate, ceil_div_eq n L hL]
    split_ifs <;> simp

theorem tables_list_last (n L : Nat) (hL : 0 < L) (hn : 1 ≤ n) :
    List.replicate (n / L) L ++ (if n % L = 0 then [] else [n % L])
      = List.replicate (ceil_div n L - 1) L ++ [n - L * (ceil_div n L - 1)] := by
  have hm := Nat.mod_lt n hL
  have hd := Nat.div_add_mod n L
  rw [ceil_div_eq n L hL]
  by_cases h0 : n % L = 0
  · have hq : 1 ≤ n / L := by
      rcases Nat.eq_zero_or_pos (n / L) with hz | hp
      · rw [hz] at hd; omega
      · exact hp
    obtain ⟨q, hq2⟩ : ∃ q, n / L = q + 1 := ⟨n / L - 1, by omega⟩
    simp only [h0, if_true, hq2, Nat.add_zero, Nat.add_sub_cancel, List.append_nil]
    rw [List.replicate_succ']
    congr 2
    rw [hq2, Nat.mul_add] at hd; omega
  · simp only [h0, if_false, Nat.add_sub_cancel]
    congr 2
    omega

theorem layout_tables (out : List Out) (n cols : Nat) (hcols : 1 ≤ cols) (hn : 1 ≤ n)
    (h : out.filterMap Out.mark = full_layout (ceil_div n cols) n) :
    inner_tables out
        = some (List.replicate (n / ceil_div n cols) (ceil_div n cols)
            ++ (if n % ceil_div n cols = 0 then [] else [n % ceil_div n cols])) := by
  rw [inner_tables, h, inner_tables_from_full_layout _ (ceil_div_pos n cols hn hcols)]

theorem layout_rows_bounded (out : List Out) (n cols : Nat) (hcols : 1 ≤ cols) (hn : 1 ≤ n)
    (h : out.filterMap Out.mark = full_layout (ceil_div n cols) n) :
    ∃ ts, inner_tables out = some ts ∧ (∀ t ∈ ts, t ≤ ceil_div n cols) ∧ ts.sum = n := by
  have hL := ceil_div_pos n cols hn hcols
  obtain ⟨p1, p2, -⟩ := tables_list_props n (ceil_div n cols) hL
  exact ⟨_, layout_tables out n cols hcols hn h, p1, p2⟩

theorem layout_tables_opened (out : List Out) (n cols : Nat) (hcols : 1 ≤ cols) (hn : 1 ≤ n)
    (h : out.filterMap Out.mark = full_layout (ceil_div n cols) n) :
    tables_opened out = ceil_div n (ceil_div n cols) := by
  have hL := ceil_div_pos n cols hn hcols
  have ht := layout_tables out n cols hcols hn h
  have hc := count_th_of_inner_tables _ _ _ ht
  obtain ⟨-, -, p3⟩ := tables_list_props n (ceil_div n cols) hL
  rw [tables_opened]
  simpa [p3] using hc

/-! ## The chipset printer -/

theorem chipsets_loop_spec (T : test_state_tags) (L : Nat) (hL : 0 < L) (es : List penable) :
    ∀ (i : Nat) (prev : Option penable) (color : Bool),
      (chipsets_loop T L es i prev color).val = some (i + es.length)
      ∧ (chipsets_loop T L es i prev color).err = []
      ∧ (chipsets_loop T L es i prev color).out.filterMap Out.mark = layout L i es.length
      ∧ (chipsets_loop T L es i prev color).out.filterMap Out.row_key
          = es.map (fun e => (e.vendor_name, e.device_name)) := by
  induction es with
  | nil => intro i prev color; simp [chipsets_loop, Run.ret, layout]
  | cons e rest ih =>
    intro i prev color
    simp only [chipsets_loop, c_mod_pos _ _ hL, run_bind_eq, run_pure_eq, and_then_ret,
      and_then_printf, ite_printf, ite_printf_mk]
    refine ⟨?_, ?_, ?_, ?_⟩
    · simp only [ih, List.length_cons]; congr 1; omega
    · simp only [ih]
    · simp [List.filterMap_append, filterMap_ite_singleton, ih, layout, Out.mark]
    · simp [List.filterMap_append, filterMap_ite_singleton, ih, Out.row_key]

theorem chipsets_run (T : test_state_tags) (es : List penable) (cols : Nat) (hcols : 1 ≤ cols)
    (hn : 1 ≤ es.length) :
    (print_supported_chipsets_wiki T es cols).val = some ()
    ∧ (print_supported_chipsets_wiki T es cols).out.filterMap Out.mark
        = full_layout (ceil_div es.length cols) es.length
    ∧ (print_supported_chipsets_wiki T es cols).out.filterMap Out.row_key
        = es.map (fun e => (e.vendor_name, e.device_name)) := by
  have hL := ceil_div_pos es.length cols hn hcols
  obtain ⟨h1, h2, h3, h4⟩ := chipsets_loop_spec T (ceil_div es.length cols) hL es 0 none true
  simp only [print_supported_chipsets_wiki, c_div_pos _ _ hcols, c_mod_pos _ _ hcols,
    run_bind_eq, run_pure_eq, and_then_ret, and_then_printf, lines_per_col_eq _ _ hcols,
    and_then_of_val _ _ _ h1, c_mod_pos _ _ hL, ite_printf, ite_printf_mk]
  refine ⟨?_, ?_, ?_⟩
  · simp [printf]
  · simp [List.filterMap_append, filterMap_ite_singleton, h3, Out.mark, full_layout, printf]
  · simp [List.filterMap_append, filterMap_ite_singleton, h4, Out.row_key, printf]

theorem chipsets_run_empty (T : test_state_tags) (cols : Nat) (hcols : 1 ≤ cols) :
    (print_supported_chipsets_wiki T [] cols).val = none
    ∧ (print_supported_chipsets_wiki T [] cols).out = [Out.chipsets_head 0] := by
  simp only [print_supported_chipsets_wiki, c_div_pos _ _ hcols, c_mod_pos _ _ hcols,
    run_bind_eq, run_pure_eq, and_then_ret, and_then_printf, List.length_nil, Nat.zero_div,
    Nat.zero_mod, Nat.lt_irrefl, if_false, Nat.add_zero, chipsets_loop, c_mod_zero,
    and_then_stop, and_true]

theorem chipsets_loop_colors (T : test_state_tags) (L : Nat) (hL : 0 < L) (es : List penable) :
    ∀ (i : Nat) (p : penable) (color : Bool), 0 < i →
      List.Chain color_rule (p.vendor_name, if color then "eeeeee" else "dddddd")
        ((chipsets_loop T L es i (some p) color).out.filterMap Out.row_vendor_bgcolor) := by
  induction es with
  | nil => intro i p color _; simp [chipsets_loop, Run.ret]
  | cons e rest ih =>
    intro i p color hi
    simp only [chipsets_loop, c_mod_pos _ _ hL, run_bind_eq, run_pure_eq, and_then_ret,
      and_then_printf, ite_printf, ite_printf_mk]
    simp only [List.filterMap_append, filterMap_ite_singleton, List.filterMap_cons,
      List.filterMap_nil, Out.mark, Out.row_vendor_bgcolor, ite_self, List.nil_append]
    refine List.Chain.cons ?_ (ih (i + 1) e _ (by omega))
    by_cases hv : e.vendor_name = p.vendor_name <;> cases color <;>
      simp [color_rule, hi, hv, Ne.symm, eq_comm]

theorem chipsets_run_colors (T : test_state_tags) (es : List penable) (cols : Nat)
    (hcols : 1 ≤ cols) (hn : 1 ≤ es.length) :
    ((print_supported_chipsets_wiki T es cols).out.filterMap Out.row_vendor_bgcolor).head?
        = es.head?.map (fun e => (e.vendor_name, "eeeeee"))
    ∧ List.Chain' color_rule
        ((print_supported_chipsets_wiki T es cols).out.filterMap Out.row_vendor_bgcolor) := by
  have hL := ceil_div_pos es.length cols hn hcols
  obtain ⟨h1, -⟩ := chipsets_loop_spec T (ceil_div es.length cols) hL es 0 none true
  simp only [print_supported_chipsets_wiki, c_div_pos _ _ hcols, c_mod_pos _ _ hcols,
    run_bind_eq, run_pure_eq, and_then_ret, and_then_printf, lines_per_col_eq _ _ hcols,
    and_then_of_val _ _ _ h1, c_mod_pos _ _ hL, ite_printf, ite_printf_mk]
  cases es with
  | nil => simp at hn
  | cons e rest =>
    have hc := chipsets_loop_colors T (ceil_div (e :: rest).length cols) hL rest 1 e true
      (by omega)
    simp only [chipsets_loop, c_mod_pos _ _ hL, run_bind_eq, run_pure_eq, and_then_ret,
      and_then_printf, ite_printf, ite_printf_mk]
    simp only [List.filterMap_append, filterMap_ite_singleton, List.filterMap_cons,
      List.filterMap_nil, Out.mark, Out.row_vendor_bgcolor, ite_self, List.nil_append, printf,
      List.append_nil]
    exact ⟨by simp, hc⟩

/-! ## The chip printer -/

theorem chips_loop_spec (T : test_state_tags) (ftt : Nat → String) (L : Nat) (hL : 0 < L)
    (fs : List flashchip) :
    ∀ (i : Nat) (old : Option flashchip) (c : Int),
      (chips_loop T ftt L fs i old c).val = some (i + fs.length)
      ∧ (chips_loop T ftt L fs i old c).err = []
      ∧ (chips_loop T ftt L fs i old c).out.filterMap Out.mark = layout L i fs.length
      ∧ (chips_loop T ftt L fs i old c).out.filterMap Out.row_key
          = fs.map (fun f => (f.vendor, f.name)) := by
  induction fs with
  | nil => intro i old c; simp [chips_loop, Run.ret, layout]
  | cons f rest ih =>
    intro i old c
    simp only [chips_loop, c_mod_pos _ _ hL, run_bind_eq, run_pure_eq, and_then_ret,
      and_then_printf, ite_printf, ite_printf_mk]
    refine ⟨?_, ?_, ?_, ?_⟩
    · simp only [ih, List.length_cons]; congr 1; omega
    · simp only [ih]
    · simp [List.filterMap_append, filterMap_ite_singleton, ih, layout, Out.mark]
    · simp [List.filterMap_append, filterMap_ite_singleton, ih, Out.row_key]

theorem chips_run (T : test_state_tags) (ftt : Nat → String) (fs : List flashchip) (cols : Nat)
    (hcols : 1 ≤ cols) (hn : 1 ≤ fs.length) :
    (print_supported_chips_wiki T ftt fs cols).val = some ()
    ∧ (print_supported_chips_wiki T ftt fs cols).out.filterMap Out.mark
        = full_layout (ceil_div fs.length cols) fs.length
    ∧ (print_supported_chips_wiki T ftt fs cols).out.filterMap Out.row_key
        = fs.map (fun f => (f.vendor, f.name)) := by
  have hL := ceil_div_pos fs.length cols hn hcols
  obtain ⟨h1, h2, h3, h4⟩ := chips_loop_spec T ftt (ceil_div fs.length cols) hL fs 0 none 1
  simp only [print_supported_chips_wiki, c_div_pos _ _ hcols, c_mod_pos _ _ hcols,
    run_bind_eq, run_pure_eq, and_then_ret, and_then_printf, lines_per_col_eq _ _ hcols,
    and_then_of_val _ _ _ h1, c_mod_pos _ _ hL, ite_printf, ite_printf_mk]
  refine ⟨?_, ?_, ?_⟩
  · simp [printf]
  · simp [List.filterMap_append, filterMap_ite_singleton, h3, Out.mark, full_layout, printf]
  · simp [List.filterMap_append, filterMap_ite_singleton, h4, Out.row_key, printf]

theorem chips_run_empty (T : test_state_tags) (ftt : Nat → String) (cols : Nat)
    (hcols : 1 ≤ cols) :
    (print_supported_chips_wiki T ftt [] cols).val = none
    ∧ (print_supported_chips_wiki T ftt [] cols).out = [Out.chips_intro, Out.chips_head 0] := by
  simp only [print_supported_chips_wiki, c_div_pos _ _ hcols, c_mod_pos _ _ hcols,
    run_bind_eq, run_pure_eq, and_then_ret, and_then_printf, List.length_nil, Nat.zero_div,
    Nat.zero_mod, Nat.lt_irrefl, if_false, Nat.add_zero, chips_loop, c_mod_zero,
    and_then_stop, and_true]

theorem chips_loop_colors (T : test_state_tags) (ftt : Nat → String) (L : Nat) (hL : 0 < L)
    (fs : List flashchip) :
    ∀ (i : Nat) (o : flashchip) (c : Int), (c = 0 ∨ c = 1) →
      List.Chain color_rule (o.vendor, if c = 1 then "eeeeee" else "dddddd")
        ((chips_loop T ftt L fs i (some o) c).out.filterMap Out.row_vendor_bgcolor) := by
  induction fs with
  | nil => intro i o c _; simp [chips_loop, Run.ret]
  | cons f rest ih =>
    intro i o c hc
    simp only [chips_loop, c_mod_pos _ _ hL, run_bind_eq, run_pure_eq, and_then_ret,
      and_then_printf, ite_printf, ite_printf_mk]
    simp only [List.filterMap_append, filterMap_ite_singleton, List.filterMap_cons,
      List.filterMap_nil, Out.mark, Out.row_vendor_bgcolor, ite_self, List.nil_append]
    refine List.Chain.cons ?_ (ih (i + 1) f _ ?_)
    · by_cases hv : o.vendor = f.vendor <;> rcases hc with hc | hc <;>
        simp [color_rule, hv, hc]
    · by_cases hv : o.vendor = f.vendor <;> rcases hc with hc | hc <;> simp [hv, hc]

theorem chips_run_colors (T : test_state_tags) (ftt : Nat → String) (fs : List flashchip)
    (cols : Nat) (hcols : 1 ≤ cols) (hn : 1 ≤ fs.length) :
    ((print_supported_chips_wiki T ftt fs cols).out.filterMap Out.row_vendor_bgcolor).head?
        = fs.head?.map (fun f => (f.vendor, "eeeeee"))
    ∧ List.Chain' color_rule
        ((print_supported_chips_wiki T ftt fs cols).out.filterMap Out.row_vendor_bgcolor) := by
  have hL := ceil_div_pos fs.length cols hn hcols
  obtain ⟨h1, -⟩ := chips_loop_spec T ftt (ceil_div fs.length cols) hL fs 0 none 1
  simp only [print_supported_chips_wiki, c_div_pos _ _ hcols, c_mod_pos _ _ hcols,
    run_bind_eq, run_pure_eq, and_then_ret, and_then_printf, lines_per_col_eq _ _ hcols,
    and_then_of_val _ _ _ h1, c_mod_pos _ _ hL, ite_printf, ite_printf_mk]
  cases fs with
  | nil => simp at hn
  | cons f rest =>
    have hc := chips_loop_colors T ftt (ceil_div (f :: rest).length cols) hL rest 1 f 1
      (Or.inr rfl)
    simp only [chips_loop, c_mod_pos _ _ hL, run_bind_eq, run_pure_eq, and_then_ret,
      and_then_printf, ite_printf, ite_printf_mk]
    simp only [List.filterMap_append, filterMap_ite_singleton, List.filterMap_cons,
      List.filterMap_nil, Out.mark, Out.row_vendor_bgcolor, ite_self, List.nil_append, printf,
      List.append_nil]
    exact ⟨by simp, hc⟩

/-! ## The board printer -/

theorem and_then_fprintf {β : Type} (e : Err) (f : Unit → Run β) :
    Run.and_then (fprintf_stderr e) f = ⟨(f ()).out, e :: (f ()).err, (f ()).val⟩ := by
  simp [Run.and_then, fprintf_stderr]

theorem board_note_out (d : String) (note : Option String) (m : Nat) (s : String) :
    (board_note d note m s).out
      = [match note with
         | some _ => Out.note_ref d (m + 1)
         | none => Out.newline] := by
  cases note with
  | none => simp [board_note, Run.ret]
  | some t =>
    simp only [board_note, run_bind_eq, run_pure_eq, and_then_printf, and_then_fprintf,
      and_then_ret]
    split_ifs <;> simp [Run.ret]

theorem board_note_val (d : String) (note : Option String) (m : Nat) (s : String) :
    (board_note d note m s).val
      = some (match note with
         | some t => (m + 1, strcat_realloc s (snprintf sizeof_tmp (footnote_text d (m + 1) t)).1)
         | none => (m, s)) := by
  cases note with
  | none => simp [board_note, Run.ret]
  | some t =>
    simp only [board_note, run_bind_eq, run_pure_eq, and_then_printf, and_then_fprintf,
      and_then_ret]
    split_ifs <;> simp [Run.ret]

theorem boards_loop_spec (T : test_state_tags) (b : board_match_table) (d : String) (L : Nat)
    (hL : 0 < L) (bs : List board_info) :
    ∀ (i : Nat) (prev : Option board_info) (color : Bool) (m : Nat) (s : String),
      (boards_loop T b d L bs i prev color m s).val
        = some ⟨i + bs.length, m + (notes_of bs).length,
            append_blocks s (footnote_blocks d m (notes_of bs))⟩
      ∧ (boards_loop T b d L bs i prev color m s).out.filterMap Out.mark
          = layout L i bs.length
      ∧ (boards_loop T b d L bs i prev color m s).out.filterMap Out.row_key
          = bs.map (fun bd => (bd.vendor, bd.name))
      ∧ (boards_loop T b d L bs i prev color m s).out.filterMap Out.notes_text = [] := by
  induction bs with
  | nil =>
    intro i prev color m s
    simp [boards_loop, Run.ret, layout, notes_of, footnote_blocks, append_blocks]
  | cons bd rest ih =>
    intro i prev color m s
    simp only [boards_loop, c_mod_pos _ _ hL, run_bind_eq, run_pure_eq, and_then_ret,
      and_then_printf, ite_printf, ite_printf_mk,
      and_then_of_val _ _ _ (board_note_val d bd.note m s), board_note_out]
    refine ⟨?_, ?_, ?_, ?_⟩
    · cases hn : bd.note with
      | none =>
        simp only [ih, notes_of, List.filterMap_cons, hn, List.length_cons]
        congr 2
        omega
      | some t =>
        simp only [ih, notes_of, List.filterMap_cons, hn, List.length_cons, footnote_blocks,
          List.enumFrom_cons, List.map_cons, append_blocks, List.foldl_cons]
        congr 2
        · omega
        · omega
    · cases hn : bd.note <;>
        simp [List.filterMap_append, filterMap_ite_singleton, ih, layout, Out.mark]
    · cases hn : bd.note <;>
        simp [List.filterMap_append, filterMap_ite_singleton, ih, Out.row_key]
    · cases hn : bd.note <;>
        simp [List.filterMap_append, filterMap_ite_singleton, ih, Out.notes_text]

theorem boards_loop_colors (T : test_state_tags) (b : board_match_table) (d : String) (L : Nat)
    (hL : 0 < L) (bs : List board_info) :
    ∀ (i : Nat) (p : board_info) (color : Bool) (m : Nat) (s : String), 0 < i →
      List.Chain color_rule (p.vendor, if color then "eeeeee" else "dddddd")
        ((boards_loop T b d L bs i (some p) color m s).out.filterMap Out.row_vendor_bgcolor) := by
  induction bs with
  | nil => intro i p color m s _; simp [boards_loop, Run.ret]
  | cons bd rest ih =>
    intro i p color m s hi
    simp only [boards_loop, c_mod_pos _ _ hL, run_bind_eq, run_pure_eq, and_then_ret,
      and_then_printf, ite_printf, ite_printf_mk,
      and_then_of_val _ _ _ (board_note_val d bd.note m s), board_note_out]
    have ht : List.filterMap Out.row_vendor_bgcolor
        [match bd.note with
          | some _ => Out.note_ref d (m + 1)
          | none => Out.newline] = [] := by
      cases bd.note <;> rfl
    simp only [List.filterMap_append, filterMap_ite_singleton, List.filterMap_cons,
      List.filterMap_nil, Out.mark, Out.row_vendor_bgcolor, ite_self, List.nil_append, ht]
    refine List.Chain.cons ?_ (ih (i + 1) bd _ _ _ (by omega))
    by_cases hv : bd.vendor = p.vendor <;> cases color <;>
      simp [color_rule, hi, hv, Ne.symm, eq_comm]

theorem boards_loop_anchors (T : test_state_tags) (b : board_match_table) (d : String) (L : Nat)
    (hL : 0 < L) (bs : List board_info) :
    ∀ (i : Nat) (prev : Option board_info) (color : Bool) (m : Nat) (s : String),
      (boards_loop T b d L bs i prev color m s).out.filterMap Out.anchor
        = ((notes_of bs).enumFrom (m + 1)).map (fun p => (d, p.1)) := by
  induction bs with
  | nil => intro i prev color m s; simp [boards_loop, Run.ret, notes_of]
  | cons bd rest ih =>
    intro i prev color m s
    simp only [boards_loop, c_mod_pos _ _ hL, run_bind_eq, run_pure_eq, and_then_ret,
      and_then_printf, ite_printf, ite_printf_mk,
      and_then_of_val _ _ _ (board_note_val d bd.note m s), board_note_out]
    cases hn : bd.note <;>
      simp [List.filterMap_append, filterMap_ite_singleton, ih, Out.anchor, notes_of, hn]

theorem row_anchors_th (c : Prop) [Decidable c] (h : String) (ys : List Out) :
    row_anchors ((if c then [Out.th h] else []) ++ ys) = row_anchors ys := by
  split_ifs <;> simp [row_anchors]

theorem row_anchors_end (c : Prop) [Decidable c] (ys : List Out) :
    row_anchors ((if c then [Out.inner_end] else []) ++ ys) = row_anchors ys := by
  split_ifs <;> simp [row_anchors]

theorem boards_loop_row_anchors (T : test_state_tags) (b : board_match_table) (d : String)
    (L : Nat) (hL : 0 < L) (pre : List board_info) (bd : board_info) (post : List board_info) :
    ∀ (i : Nat) (prev : Option board_info) (color : Bool) (m : Nat) (s : String),
      (row_anchors (boards_loop T b d L (pre ++ bd :: post) i prev color m s).out)[pre.length]?
        = some ((bd.vendor, bd.name), bd.note.map (fun _ => m + (notes_of pre).length + 1)) := by
  induction pre with
  | nil =>
    intro i prev color m s
    simp only [List.nil_append, boards_loop, c_mod_pos _ _ hL, run_bind_eq, run_pure_eq,
      and_then_ret, and_then_printf, ite_printf, ite_printf_mk,
      and_then_of_val _ _ _ (board_note_val d bd.note m s), board_note_out, row_anchors_th]
    cases hn : bd.note <;> simp [row_anchors, notes_of, Out.anchor]
  | cons x pre ih =>
    intro i prev color m s
    simp only [List.cons_append, boards_loop, c_mod_pos _ _ hL, run_bind_eq, run_pure_eq,
      and_then_ret, and_then_printf, ite_printf, ite_printf_mk, List.append_eq,
      and_then_of_val _ _ _ (board_note_val d x.note m s), board_note_out, row_anchors_th]
    cases hn : x.note with
    | none =>
      simp only [row_anchors, List.singleton_append, List.nil_append, List.cons_append,
        List.length_cons, List.getElem?_cons_succ, List.append_eq]
      rw [row_anchors_end, ih]
      simp [notes_of, hn]
    | some t =>
      simp only [row_anchors, List.singleton_append, List.nil_append, List.cons_append,
        List.length_cons, List.getElem?_cons_succ, List.append_eq]
      rw [row_anchors_end, ih]
      simp only [notes_of, List.filterMap_cons, hn, List.length_cons]
      congr 3
      funext _
      omega

theorem boards_loop_rows (T : test_state_tags) (b : board_match_table) (d : String)
    (L : Nat) (hL : 0 < L) (pre : List board_info) (bd : board_info) (post : List board_info) :
    ∀ (i : Nat) (prev : Option board_info) (color : Bool) (m : Nat) (s : String),
      ∃ bg : String, (bg = "eeeeee" ∨ bg = "dddddd") ∧
        ((boards_loop T b d L (pre ++ bd :: post) i prev color m s).out.filterMap
          Out.board_row_item)[pre.length]? = some (board_row_of T b bg bd) := by
  induction pre with
  | nil =>
    intro i prev color m s
    simp only [List.nil_append, boards_loop, c_mod_pos _ _ hL, run_bind_eq, run_pure_eq,
      and_then_ret, and_then_printf, ite_printf, ite_printf_mk,
      and_then_of_val _ _ _ (board_note_val d bd.note m s), board_note_out]
    simp only [List.filterMap_append, filterMap_ite_singleton, List.filterMap_cons,
      List.filterMap_nil, Out.board_row_item, ite_self, List.nil_append]
    refine ⟨_, ?_, by simp [board_row_of]; rfl⟩
    split_ifs <;> simp
  | cons x pre ih =>
    intro i prev color m s
    simp only [List.cons_append, boards_loop, c_mod_pos _ _ hL, run_bind_eq, run_pure_eq,
      and_then_ret, and_then_printf, ite_printf, ite_printf_mk, List.append_eq,
      and_then_of_val _ _ _ (board_note_val d x.note m s), board_note_out]
    cases hn : x.note <;>
      simp only [List.filterMap_append, filterMap_ite_singleton, List.filterMap_cons,
        List.filterMap_nil, Out.board_row_item, ite_self, List.nil_append,
        List.length_cons, List.getElem?_cons_succ] <;>
      exact ih _ _ _ _ _

theorem count_boards_spec (T : test_state_tags) (bs : List board_info) :
    ∀ c : board_counts,
      count_boards T bs c
        = ⟨c.boardcount_good + bs.countP (fun bd => bd.working = T.OK),
           c.boardcount_nt + bs.countP (fun bd => bd.working ≠ T.OK ∧ bd.working = T.NT),
           c.boardcount_bad + bs.countP (fun bd => bd.working ≠ T.OK ∧ bd.working ≠ T.NT)⟩ := by
  induction bs with
  | nil => intro c; simp [count_boards]
  | cons bd rest ih =>
    intro c
    by_cases h1 : bd.working = T.OK
    · simp [count_boards, h1, ih, List.countP_cons, Nat.add_assoc, Nat.add_comm 1]
    · by_cases h2 : bd.working = T.NT
      · have h3 : ¬T.NT = T.OK := h2 ▸ h1
        simp [count_boards, h1, h2, h3, ih, List.countP_cons, Nat.add_assoc, Nat.add_comm 1]
      · simp [count_boards, h1, h2, ih, List.countP_cons, Nat.add_assoc, Nat.add_comm 1]

theorem count_boards_boardcount (T : test_state_tags) (bs : List board_info) :
    ∀ c : board_counts, (count_boards T bs c).boardcount = c.boardcount + bs.length := by
  induction bs with
  | nil => intro c; simp [count_boards]
  | cons bd rest ih =>
    intro c
    simp only [count_boards]
    split_ifs <;> rw [ih] <;> simp only [board_counts.boardcount, List.length_cons] <;> omega

theorem scan_getElem (v n : String) (es : List board_match) :
    ∀ pre : List board_match,
      (pre ++ es)[scan_board_matches v n es pre.length]?
        = es.find? (fun m => m.vendor_name = v ∧ m.board_name = n) := by
  induction es with
  | nil => intro pre; simp [scan_board_matches]
  | cons m rest ih =>
    intro pre
    by_cases h : m.vendor_name = v ∧ m.board_name = n
    · have h2 : ¬(m.vendor_name ≠ v ∨ m.board_name ≠ n) := by tauto
      rw [scan_board_matches, if_neg h2, List.find?_cons, decide_eq_true h,
        List.getElem?_append_right (Nat.le_refl _)]
      simp
    · have h2 : m.vendor_name ≠ v ∨ m.board_name ≠ n := by tauto
      have := ih (pre ++ [m])
      simp only [List.length_append, List.length_singleton, List.append_assoc,
        List.singleton_append] at this
      simp only [scan_board_matches, if_pos h2, this, List.find?_cons]
      simp [h]

theorem lb_vendor_scan (b : board_match_table) (v n : String) :
    b.lb_vendor (scan_board_matches v n b.entries 0)
      = match first_match b v n with
        | some m => m.lb_vendor
        | none => b.sentinel_lb_vendor := by
  have h := scan_getElem v n b.entries []
  simp only [List.nil_append, List.length_nil] at h
  simp only [board_match_table.lb_vendor, h, first_match]

theorem lb_part_scan (b : board_match_table) (v n : String) :
    b.lb_part (scan_board_matches v n b.entries 0)
      = match first_match b v n with
        | some m => m.lb_part
        | none => b.sentinel_lb_part := by
  have h := scan_getElem v n b.entries []
  simp only [List.nil_append, List.length_nil] at h
  simp only [board_match_table.lb_part, h, first_match]

theorem boards_run_out (T : test_state_tags) (b : board_match_table) (d : String) (cols : Nat)
    (bs : List board_info) (hcols : 1 ≤ cols) (hn : 1 ≤ bs.length) :
    (print_supported_boards_wiki_helper T b d cols bs).val = some ()
    ∧ (print_supported_boards_wiki_helper T b d cols bs).out
      = Out.boards_head d (count_boards T bs ⟨0, 0, 0⟩).boardcount_good
          (count_boards T bs ⟨0, 0, 0⟩).boardcount_nt
          (count_boards T bs ⟨0, 0, 0⟩).boardcount_bad
        :: ((boards_loop T b d (ceil_div bs.length cols) bs 0 none true 0 "").out
          ++ ((if bs.length % ceil_div bs.length cols > 0 then [Out.inner_end] else [])
            ++ (Out.boards_end :: (if 0 < (notes_of bs).length then
                [Out.notes_block (append_blocks "" (footnote_blocks d 0 (notes_of bs)))]
              else [])))) := by
  have hL := ceil_div_pos bs.length cols hn hcols
  obtain ⟨h1, -⟩ := boards_loop_spec T b d (ceil_div bs.length cols) hL bs 0 none true 0 ""
  have hc : (count_boards T bs ⟨0, 0, 0⟩).boardcount = bs.length := by
    rw [count_boards_boardcount]; simp [board_counts.boardcount]
  simp only [print_supported_boards_wiki_helper, hc, c_div_pos _ _ hcols, c_mod_pos _ _ hcols,
    run_bind_eq, run_pure_eq, and_then_ret, and_then_printf, lines_per_col_eq _ _ hcols,
    and_then_of_val _ _ _ h1, c_mod_pos _ _ hL, ite_printf, ite_printf_mk, Nat.zero_add]
  refine ⟨?_, ?_⟩
  · split_ifs <;> simp [printf, Run.ret]
  · split_ifs <;> simp [printf, Run.ret]

theorem boards_run_empty (T : test_state_tags) (b : board_match_table) (d : String) (cols : Nat)
    (hcols : 1 ≤ cols) :
    (print_supported_boards_wiki_helper T b d cols []).val = none
    ∧ (print_supported_boards_wiki_helper T b d cols []).out = [Out.boards_head d 0 0 0] := by
  simp only [print_supported_boards_wiki_helper, count_boards, board_counts.boardcount,
    c_div_pos _ _ hcols, c_mod_pos _ _ hcols,
    run_bind_eq, run_pure_eq, and_then_ret, and_then_printf, List.length_nil, Nat.zero_div,
    Nat.zero_mod, Nat.lt_irrefl, if_false, Nat.add_zero, boards_loop, c_mod_zero,
    and_then_stop, and_true]

theorem row_anchors_of_no_rows (ys : List Out) (hy : ∀ o ∈ ys, o.board_row_item = none) :
    row_anchors ys = [] := by
  induction ys with
  | nil => rfl
  | cons y ys ih =>
    have h1 := hy y (List.mem_cons_self _ _)
    have h2 := ih (fun o ho => hy o (List.mem_cons_of_mem _ ho))
    cases y <;> first | exact h2 | exact absurd h1 (by simp [Out.board_row_item])

theorem head_anchor_append (xs ys : List Out) (hy : ∀ o ∈ ys, o.anchor = none) :
    (xs ++ ys).head?.bind Out.anchor = xs.head?.bind Out.anchor := by
  cases xs with
  | nil =>
    cases ys with
    | nil => rfl
    | cons y ys => simpa using hy y (List.mem_cons_self _ _)
  | cons x xs => rfl

theorem row_anchors_append (ys : List Out)
    (hy : ∀ o ∈ ys, o.anchor = none ∧ o.board_row_item = none) :
    ∀ xs : List Out, row_anchors (xs ++ ys) = row_anchors xs := by
  intro xs
  induction xs with
  | nil => simpa using row_anchors_of_no_rows ys (fun o ho => (hy o ho).2)
  | cons x xs ih =>
    cases x <;> simp only [List.cons_append, row_anchors, List.append_eq, ih,
      head_anchor_append xs ys (fun o ho => (hy o ho).1)]

theorem boards_tail_clean (c1 c2 : Prop) [Decidable c1] [Decidable c2] (s : String) :
    ∀ o ∈ (if c1 then [Out.inner_end] else []) ++ (Out.boards_end ::
        (if c2 then [Out.notes_block s] else [])),
      o.anchor = none ∧ o.board_row_item = none := by
  intro o ho
  split_ifs at ho <;> simp at ho <;> rcases ho with rfl | rfl | rfl <;>
    simp [Out.anchor, Out.board_row_item]

theorem boards_run (T : test_state_tags) (b : board_match_table) (d : String)
    (bs : List board_info) (cols : Nat) (hcols : 1 ≤ cols) (hn : 1 ≤ bs.length) :
    (print_supported_boards_wiki_helper T b d cols bs).val = some ()
    ∧ (print_supported_boards_wiki_helper T b d cols bs).out.filterMap Out.mark
        = full_layout (ceil_div bs.length cols) bs.length
    ∧ (print_supported_boards_wiki_helper T b d cols bs).out.filterMap Out.row_key
        = bs.map (fun bd => (bd.vendor, bd.name)) := by
  have hL := ceil_div_pos bs.length cols hn hcols
  obtain ⟨-, h2, h3, -⟩ := boards_loop_spec T b d (ceil_div bs.length cols) hL bs 0 none true 0 ""
  obtain ⟨r1, r2⟩ := boards_run_out T b d cols bs hcols hn
  refine ⟨r1, ?_, ?_⟩
  · rw [r2]
    simp only [List.filterMap_cons, List.filterMap_append, h2, full_layout, Out.mark]
    split_ifs <;> simp [Out.mark]
  · rw [r2]
    simp only [List.filterMap_cons, List.filterMap_append, h3, Out.row_key]
    split_ifs <;> simp [Out.row_key]

theorem row_vendor_eq (out : List Out) :
    (out.filterMap Out.row_vendor_bgcolor).map Prod.fst
      = (out.filterMap Out.row_key).map Prod.fst := by
  induction out with
  | nil => rfl
  | cons o rest ih =>
    cases o <;> simp [List.filterMap_cons, Out.row_vendor_bgcolor, Out.row_key, ih]

theorem boards_run_colors (T : test_state_tags) (b : board_match_table) (d : String)
    (bs : List board_info) (cols : Nat) (hcols : 1 ≤ cols) (hn : 1 ≤ bs.length) :
    ((print_supported_boards_wiki_helper T b d cols bs).out.filterMap
        Out.row_vendor_bgcolor).head? = bs.head?.map (fun bd => (bd.vendor, "eeeeee"))
    ∧ List.Chain' color_rule
        ((print_supported_boards_wiki_helper T b d cols bs).out.filterMap
          Out.row_vendor_bgcolor) := by
  have hL := ceil_div_pos bs.length cols hn hcols
  obtain ⟨-, r2⟩ := boards_run_out T b d cols bs hcols hn
  have htail : ∀ (c1 c2 : Prop) [Decidable c1] [Decidable c2] (s : String),
      List.filterMap Out.row_vendor_bgcolor ((if c1 then [Out.inner_end] else [])
        ++ (Out.boards_end :: (if c2 then [Out.notes_block s] else []))) = [] := by
    intro c1 c2 _ _ s
    split_ifs <;> simp [Out.row_vendor_bgcolor]
  rw [r2]
  simp only [List.filterMap_cons, List.filterMap_append, htail, Out.row_vendor_bgcolor,
    List.append_nil]
  cases bs with
  | nil => simp at hn
  | cons bd rest =>
    have hc := boards_loop_colors T b d (ceil_div (bd :: rest).length cols) hL rest 1 bd true
    simp only [boards_loop, c_mod_pos _ _ hL, run_bind_eq, run_pure_eq, and_then_ret,
      and_then_printf, ite_printf, ite_printf_mk,
      and_then_of_val _ _ _ (board_note_val d bd.note 0 ""), board_note_out]
    cases hnote : bd.note <;>
      simp only [List.filterMap_append, filterMap_ite_singleton, List.filterMap_cons,
        List.filterMap_nil, Out.mark, Out.row_vendor_bgcolor, ite_self, List.nil_append,
        List.append_nil] <;>
      exact ⟨by simp, hc _ _ (by omega)⟩

theorem snprintf_tmp (text : String) :
    (snprintf sizeof_tmp text).1
      = if text.length ≤ 900 then text else String.mk (text.data.take 900) := by
  have e : sizeof_tmp - 1 = 900 := by decide
  unfold snprintf
  rw [e]
  split_ifs with h
  · rw [List.take_of_length_le h]
  · trivial

theorem append_blocks_eq_join (l : List String) : append_blocks "" l = String.join l := by
  simp only [append_blocks, String.join]
  rfl

theorem boards_out_anchors (T : test_state_tags) (b : board_match_table) (d : String)
    (cols : Nat) (hcols : 1 ≤ cols) (bs : List board_info) :
    (print_supported_boards_wiki_helper T b d cols bs).out.filterMap Out.anchor
      = (List.range' 1 (notes_of bs).length).map (fun N => (d, N)) := by
  cases bs with
  | nil =>
    rw [(boards_run_empty T b d cols hcols).2]
    simp [Out.anchor, notes_of]
  | cons bd bs =>
    have hL := ceil_div_pos (bd :: bs).length cols (by simp) hcols
    rw [(boards_run_out T b d cols (bd :: bs) hcols (by simp)).2]
    simp only [List.filterMap_cons, List.filterMap_append, Out.anchor,
      boards_loop_anchors T b d _ hL]
    rw [← List.enumFrom_map_fst, List.map_map]
    split_ifs <;> simp [Out.anchor, Function.comp_def]

theorem boards_out_row_anchors (T : test_state_tags) (b : board_match_table) (d : String)
    (cols : Nat) (hcols : 1 ≤ cols) (pre : List board_info) (bd : board_info)
    (post : List board_info) :
    (row_anchors
        (print_supported_boards_wiki_helper T b d cols (pre ++ bd :: post)).out)[pre.length]?
      = some ((bd.vendor, bd.name), bd.note.map (fun _ => (notes_of pre).length + 1)) := by
  have hn : 1 ≤ (pre ++ bd :: post).length := by simp; omega
  have hL := ceil_div_pos _ cols hn hcols
  rw [(boards_run_out T b d cols _ hcols hn).2]
  simp only [row_anchors]
  rw [row_anchors_append _ (boards_tail_clean _ _ _)]
  simpa using boards_loop_row_anchors T b d _ hL pre bd post 0 none true 0 ""

theorem boards_out_notes_text (T : test_state_tags) (b : board_match_table) (d : String)
    (cols : Nat) (hcols : 1 ≤ cols) (bs : List board_info) :
    (print_supported_boards_wiki_helper T b d cols bs).out.filterMap Out.notes_text
      = (if 0 < (notes_of bs).length then
          [String.join (footnote_blocks d 0 (notes_of bs))] else []) := by
  cases bs with
  | nil =>
    rw [(boards_run_empty T b d cols hcols).2]
    simp [Out.notes_text, notes_of]
  | cons bd bs =>
    have hL := ceil_div_pos (bd :: bs).length cols (by simp) hcols
    rw [(boards_run_out T b d cols (bd :: bs) hcols (by simp)).2]
    simp only [List.filterMap_cons, List.filterMap_append, Out.notes_text,
      (boards_loop_spec T b d _ hL (bd :: bs) 0 none true 0 "").2.2.2,
      append_blocks_eq_join]
    split_ifs <;> simp [Out.notes_text]

theorem boards_out_rows (T : test_state_tags) (b : board_match_table) (d : String)
    (cols : Nat) (hcols : 1 ≤ cols) (pre : List board_info) (bd : board_info)
    (post : List board_info) :
    ∃ bg : String, (bg = "eeeeee" ∨ bg = "dddddd") ∧
      ((print_supported_boards_wiki_helper T b d cols (pre ++ bd :: post)).out.filterMap
        Out.board_row_item)[pre.length]? = some (board_row_of T b bg bd) := by
  have hn : 1 ≤ (pre ++ bd :: post).length := by simp; omega
  have hL := ceil_div_pos _ cols hn hcols
  obtain ⟨bg, hbg, hrow⟩ := boards_loop_rows T b d _ hL pre bd post 0 none true 0 ""
  refine ⟨bg, hbg, ?_⟩
  rw [(boards_run_out T b d cols _ hcols hn).2]
  have htail : ∀ (c1 c2 : Prop) [Decidable c1] [Decidable c2] (s : String),
      List.filterMap Out.board_row_item ((if c1 then [Out.inner_end] else [])
        ++ (Out.boards_end :: (if c2 then [Out.notes_block s] else []))) = [] := by
    intro c1 c2 _ _ s
    split_ifs <;> simp [Out.board_row_item]
  simp only [List.filterMap_cons, List.filterMap_append, htail, Out.board_row_item,
    List.append_nil]
  exact hrow

theorem board_row_of_required_option (T : test_state_tags) (b : board_match_table)
    (bg : String) (bd : board_info) :
    (board_row_of T b bg bd).required_option
      = some (match first_match b bd.vendor bd.name with
          | some m =>
            (match m.lb_vendor with
              | some lb_vendor => "-p internal:mainboard=" ++ lb_vendor ++ ":" ++ m.lb_part
              | none => "&mdash;")
          | none =>
            (match b.sentinel_lb_vendor with
              | some lb_vendor =>
                "-p internal:mainboard=" ++ lb_vendor ++ ":" ++ b.sentinel_lb_part
              | none => "&mdash;")) := by
  simp only [board_row_of, Out.required_option, lb_vendor_scan, lb_part_scan]
  cases first_match b bd.vendor bd.name with
  | none =>
    cases hlb : b.sentinel_lb_vendor <;> simp [hlb, String.append_assoc]
  | some m =>
    cases hlb : m.lb_vendor <;> simp [hlb, String.append_assoc]

theorem boards_wiki_out (T : test_state_tags) (b : board_match_table)
    (boards_known laptops_known : List board_info) (hn : 1 ≤ boards_known.length) :
    (print_supported_boards_wiki T b boards_known laptops_known).out
      = Out.boards_intro :: ((print_supported_boards_wiki_helper T b "boards" 2 boards_known).out
        ++ Out.laptops_intro
          :: (print_supported_boards_wiki_helper T b "laptops" 1 laptops_known).out) := by
  have hv := (boards_run_out T b "boards" 2 boards_known (by decide) hn).1
  simp only [print_supported_boards_wiki, run_bind_eq, and_then_printf,
    and_then_of_val _ _ _ hv]

/-! ## Statements about the program -/

set_option maxRecDepth 100000

/-- C1: `test_state_to_template` is a total function of the integer value of a
`test_state`: for every value, also one outside the five tags, the result is one of
the five pairwise different template names `OK`, `No`, `NA`, `Dep`, `?3`; the tag `OK`
gives `OK`, `BAD` gives `No`, `NA` gives `NA`, `DEP` gives `Dep`, and `NT` and every
value that is none of `OK`, `BAD`, `NA`, `DEP` give `?3`. -/
theorem test_state_to_template_total (T : test_state_tags) (hT : T.distinct) :
    (∀ s : Int, test_state_to_template T s ∈ ["OK", "No", "NA", "Dep", "?3"])
    ∧ ["OK", "No", "NA", "Dep", "?3"].Nodup
    ∧ test_state_to_template T T.OK = "OK"
    ∧ test_state_to_template T T.BAD = "No"
    ∧ test_state_to_template T T.NA = "NA"
    ∧ test_state_to_template T T.DEP = "Dep"
    ∧ test_state_to_template T T.NT = "?3"
    ∧ (∀ s : Int, s ≠ T.OK → s ≠ T.BAD → s ≠ T.NA → s ≠ T.DEP →
        test_state_to_template T s = "?3") := by
  simp only [test_state_tags.distinct, List.nodup_cons, List.mem_cons, List.mem_singleton,
    not_or, List.not_mem_nil, not_false_eq_true, List.nodup_nil, and_true] at hT
  obtain ⟨⟨h1, h2, h3, h4⟩, ⟨h5, h6, h7⟩, ⟨h8, h9⟩, h10⟩ := hT
  refine ⟨?_, by decide, ?_, ?_, ?_, ?_, ?_, ?_⟩
  · intro s
    unfold test_state_to_template
    split_ifs <;> simp
  · simp [test_state_to_template]
  · simp [test_state_to_template, Ne.symm h2]
  · simp [test_state_to_template, Ne.symm h4, Ne.symm h9]
  · simp [test_state_to_template, Ne.symm h3, Ne.symm h8, h10]
  · simp [test_state_to_template, Ne.symm h1, h5, h6, h7]
  · intro s a b c d
    simp [test_state_to_template, a, b, c, d]

/-- Witness of C1 on the sample tags: the value 7 is none of the tags and gives `?3`. -/
theorem test_state_to_template_total_witness :
    sample_tags.distinct ∧ test_state_to_template sample_tags 7 = "?3" :=
  ⟨by decide,
    (test_state_to_template_total sample_tags (by decide)).2.2.2.2.2.2.2 7
      (by decide) (by decide) (by decide) (by decide)⟩

/-- C3: for `cols ≥ 1` the value `n / cols + (n % cols > 0 ? 1 : 0)` of `lines_per_col`
is `ceil(n / cols)`, and for every table of `n ≥ 1` records the number of inner tables
opened by the chip, the chipset and the board printer is at most `cols`. -/
theorem tables_opened_le_cols (T : test_state_tags) (flashbuses_to_text : Nat → String)
    (board_matches : board_match_table) (devicetype : String) (cols : Nat) (hcols : 1 ≤ cols)
    (flashchips : List flashchip) (chipset_enables : List penable) (boards : List board_info)
    (hchips : 1 ≤ flashchips.length) (hchipsets : 1 ≤ chipset_enables.length)
    (hboards : 1 ≤ boards.length) :
    (∀ n : Nat, n / cols + (if n % cols > 0 then 1 else 0) = ceil_div n cols)
    ∧ tables_opened (print_supported_chips_wiki T flashbuses_to_text flashchips cols).out ≤ cols
    ∧ tables_opened (print_supported_chipsets_wiki T chipset_enables cols).out ≤ cols
    ∧ tables_opened
        (print_supported_boards_wiki_helper T board_matches devicetype cols boards).out
        ≤ cols := by
  refine ⟨fun n => lines_per_col_eq n cols hcols, ?_, ?_, ?_⟩
  · rw [layout_tables_opened _ _ cols hcols hchips
      (chips_run T flashbuses_to_text flashchips cols hcols hchips).2.1]
    exact ceil_div_ceil_div_le _ _ hcols hchips
  · rw [layout_tables_opened _ _ cols hcols hchipsets
      (chipsets_run T chipset_enables cols hcols hchipsets).2.1]
    exact ceil_div_ceil_div_le _ _ hcols hchipsets
  · rw [layout_tables_opened _ _ cols hcols hboards
      (boards_run T board_matches devicetype boards cols hcols hboards).2.1]
    exact ceil_div_ceil_div_le _ _ hcols hboards

/-- Witness of C3: four sample chipsets in three columns open at most three inner tables. -/
theorem tables_opened_le_cols_witness :
    1 ≤ 3 ∧ 1 ≤ sample_chips.length ∧ 1 ≤ sample_chipsets.length ∧ 1 ≤ sample_boards.length
    ∧ tables_opened (print_supported_chipsets_wiki sample_tags sample_chipsets 3).out ≤ 3 :=
  ⟨by decide, by decide, by decide, by decide,
    (tables_opened_le_cols sample_tags sample_flashbuses_to_text sample_matches "boards" 3
      (by decide) sample_chips sample_chipsets sample_boards (by decide) (by decide)
      (by decide)).2.2.1⟩

/-- C5 (the code stops here): on an empty table, with any column count `cols + 1 ≥ 1`,
`lines_per_col` is 0; the chip, the chipset and the board printer write the summary
with count 0, no inner table and no data row, and then evaluate `i % lines_per_col`
with a zero divisor in the check after the loop, where execution stops before the
closing of the outer table is written. -/
theorem empty_table_modulo_by_zero (T : test_state_tags) (flashbuses_to_text : Nat → String)
    (board_matches : board_match_table) (devicetype : String) (cols : Nat) :
    ((print_supported_chips_wiki T flashbuses_to_text [] (cols + 1)).val = none
      ∧ (print_supported_chips_wiki T flashbuses_to_text [] (cols + 1)).out
        = [Out.chips_intro, Out.chips_head 0])
    ∧ ((print_supported_chipsets_wiki T [] (cols + 1)).val = none
      ∧ (print_supported_chipsets_wiki T [] (cols + 1)).out = [Out.chipsets_head 0])
    ∧ ((print_supported_boards_wiki_helper T board_matches devicetype (cols + 1) []).val = none
      ∧ (print_supported_boards_wiki_helper T board_matches devicetype (cols + 1) []).out
        = [Out.boards_head devicetype 0 0 0]) :=
  ⟨chips_run_empty T flashbuses_to_text (cols + 1) (by omega),
    chipsets_run_empty T (cols + 1) (by omega),
    boards_run_empty T board_matches devicetype (cols + 1) (by omega)⟩

/-- C7: for every board table of `n` records, the first loop of
`print_supported_boards_wiki_helper` counts as good the records with status `OK`, as
untested the records with status `NT`, and as bad all other records, that is `n` less
the good and the untested ones; the three counts add up to `n`, `boardcount` is `n`,
and the summary line printed first carries the three counts. -/
theorem board_bucket_counts (T : test_state_tags) (hT : T.distinct)
    (board_matches : board_match_table) (devicetype : String) (cols : Nat) (hcols : 1 ≤ cols)
    (boards : List board_info) :
    (count_boards T boards ⟨0, 0, 0⟩).boardcount_good
        = boards.countP (fun bd => bd.working = T.OK)
    ∧ (count_boards T boards ⟨0, 0, 0⟩).boardcount_nt
        = boards.countP (fun bd => bd.working = T.NT)
    ∧ (count_boards T boards ⟨0, 0, 0⟩).boardcount_bad
        = boards.countP (fun bd => bd.working ≠ T.OK ∧ bd.working ≠ T.NT)
    ∧ (count_boards T boards ⟨0, 0, 0⟩).boardcount_bad
        = boards.length - (count_boards T boards ⟨0, 0, 0⟩).boardcount_good
          - (count_boards T boards ⟨0, 0, 0⟩).boardcount_nt
    ∧ (count_boards T boards ⟨0, 0, 0⟩).boardcount_good
        + (count_boards T boards ⟨0, 0, 0⟩).boardcount_nt
        + (count_boards T boards ⟨0, 0, 0⟩).boardcount_bad = boards.length
    ∧ (count_boards T boards ⟨0, 0, 0⟩).boardcount = boards.length
    ∧ (print_supported_boards_wiki_helper T board_matches devicetype cols boards).out.head?
        = some (Out.boards_head devicetype
            (count_boards T boards ⟨0, 0, 0⟩).boardcount_good
            (count_boards T boards ⟨0, 0, 0⟩).boardcount_nt
            (count_boards T boards ⟨0, 0, 0⟩).boardcount_bad) := by
  have hne : T.OK ≠ T.NT := by
    simp only [test_state_tags.distinct, List.nodup_cons, List.mem_cons, not_or] at hT
    exact hT.1.1
  have hsum : (count_boards T boards ⟨0, 0, 0⟩).boardcount = boards.length := by
    rw [count_boards_boardcount]; simp [board_counts.boardcount]
  have hsum2 := hsum
  simp only [board_counts.boardcount] at hsum2
  have hnt : boards.countP (fun bd => bd.working ≠ T.OK ∧ bd.working = T.NT)
      = boards.countP (fun bd => bd.working = T.NT) := by
    apply List.countP_congr
    intro bd _
    simp only [decide_eq_true_eq]
    constructor
    · exact fun h => h.2
    · intro h; exact ⟨fun h2 => hne (h2.symm.trans h), h⟩
  refine ⟨?_, ?_, ?_, ?_, hsum2, hsum, ?_⟩
  · rw [count_boards_spec]; simp
  · rw [count_boards_spec]; simp only [Nat.zero_add]; exact hnt
  · rw [count_boards_spec]; simp
  · omega
  · cases boards with
    | nil =>
      rw [(boards_run_empty T board_matches devicetype cols hcols).2]
      simp [count_boards]
    | cons bd bs =>
      rw [(boards_run_out T board_matches devicetype cols (bd :: bs) hcols (by simp)).2]
      rfl

/-- Witness of C7: the three sample boards have one good, one untested and one bad
record. -/
theorem board_bucket_counts_witness :
    sample_tags.distinct ∧ 1 ≤ 2
    ∧ (print_supported_boards_wiki_helper sample_tags sample_matches "boards" 2
        sample_boards).out.head? = some (Out.boards_head "boards" 1 1 1) :=
  ⟨by decide, by decide,
    (board_bucket_counts sample_tags (by decide) sample_matches "boards" 2 (by decide)
      sample_boards).2.2.2.2.2.2⟩

/-- C8: in one call of `print_supported_boards_wiki_helper` with `cols ≥ 1` the inline
footnote anchors carry the collection name and the numbers 1, 2, 3, ... in order, one
anchor for every record whose `note` is set; the anchor that directly follows the row
of a record with a note has the number one more than the number of noted records
before it, and the row of a record without a note is followed by no anchor; the anchor
numbered `N` has the id `<devicetype>_refN` and links to `#<devicetype>_noteN`; the
footnote section is printed exactly when a record carries a note, as the last item
directly after the closing of the outer table, and it holds the footnote blocks of the
noted records in order, the block of the `N`-th one being the text
`<span id="<devicetype>_noteN">N. [[#<devicetype>_refN|&#x2191;]]</span>` followed by
the note between `<nowiki>` tags and a line break, cut to its first 900 characters when it
is longer, with `N` in decimal digits.  The numbers start at 1 in every call: in the output of `print_supported_boards_wiki` the anchors
of the boards are numbered from 1 on and so are, after them, those of the laptops. -/
theorem footnote_numbering (T : test_state_tags) (board_matches : board_match_table)
    (devicetype : String) (cols : Nat) (hcols : 1 ≤ cols) (boards : List board_info) :
    (print_supported_boards_wiki_helper T board_matches devicetype cols boards).out.filterMap
        Out.anchor
      = (List.range' 1 (notes_of boards).length).map (fun N => (devicetype, N))
    ∧ (∀ (pre : List board_info) (bd : board_info) (post : List board_info),
        boards = pre ++ bd :: post →
        (row_anchors
          (print_supported_boards_wiki_helper T board_matches devicetype cols boards).out)[pre.length]?
          = some ((bd.vendor, bd.name), bd.note.map (fun _ => (notes_of pre).length + 1)))
    ∧ (∀ N : Nat, (Out.note_ref devicetype N).render
        = " <span id=\"" ++ devicetype ++ "_ref" ++ toString N ++ "\"><sup>[[#" ++ devicetype
          ++ "_note" ++ toString N ++ "|" ++ toString N ++ "]]</sup></span>\n")
    ∧ (print_supported_boards_wiki_helper T board_matches devicetype cols boards).out.filterMap
        Out.notes_text
      = (if 0 < (notes_of boards).length then
          [String.join (footnote_blocks devicetype 0 (notes_of boards))] else [])
    ∧ (boards ≠ [] → ∃ body : List Out,
        (print_supported_boards_wiki_helper T board_matches devicetype cols boards).out
          = body ++ Out.boards_end :: (if 0 < (notes_of boards).length then
              [Out.notes_block (String.join (footnote_blocks devicetype 0 (notes_of boards)))]
            else []))
    ∧ (∀ (pre : List String) (note : String) (post : List String) (N : Nat) (text : String),
        notes_of boards = pre ++ note :: post →
        N = pre.length + 1 →
        text = "<span id=\"" ++ devicetype ++ "_note" ++ toString N ++ "\">" ++ toString N
          ++ ". [[#" ++ devicetype ++ "_ref" ++ toString N ++ "|&#x2191;]]</span>"
          ++ " <nowiki>" ++ note ++ "</nowiki><br />\n" →
        (footnote_blocks devicetype 0 (notes_of boards))[pre.length]?
          = some (if text.length ≤ 900 then text else String.mk (text.data.take 900)))
    ∧ (∀ laptops_known : List board_info, boards ≠ [] →
        (print_supported_boards_wiki T board_matches boards laptops_known).out.filterMap
            Out.anchor
          = (List.range' 1 (notes_of boards).length).map (fun N => ("boards", N))
            ++ (List.range' 1 (notes_of laptops_known).length).map
              (fun N => ("laptops", N))) := by
  refine ⟨boards_out_anchors T board_matches devicetype cols hcols boards, ?_, fun _ => rfl,
    boards_out_notes_text T board_matches devicetype cols hcols boards, ?_, ?_, ?_⟩
  · intro pre bd post hb
    rw [hb]
    exact boards_out_row_anchors T board_matches devicetype cols hcols pre bd post
  · intro hne
    have hn : 1 ≤ boards.length := by
      cases boards with
      | nil => exact absurd rfl hne
      | cons bd bs => simp
    rw [(boards_run_out T board_matches devicetype cols boards hcols hn).2,
      append_blocks_eq_join]
    exact ⟨_, by rw [← List.cons_append, List.append_assoc]⟩
  · intro pre note post N text hsplit hN htext
    have hget : (pre ++ note :: post)[pre.length]? = some note := by
      rw [List.getElem?_append_right (Nat.le_refl _)]; simp
    have hfmt : footnote_text devicetype N note = text := by
      rw [htext]
      rfl
    rw [hsplit, footnote_blocks, List.getElem?_map, List.getElem?_enumFrom, hget]
    simp only [Option.map_some', Nat.zero_add, Nat.add_comm 1, ← hN, hfmt, snprintf_tmp]
  · intro laptops_known hne
    have hn : 1 ≤ boards.length := by
      cases boards with
      | nil => exact absurd rfl hne
      | cons bd bs => simp
    rw [boards_wiki_out T board_matches boards laptops_known hn]
    simp only [List.filterMap_cons, List.filterMap_append, Out.anchor]
    rw [boards_out_anchors T board_matches "boards" 2 (by decide),
      boards_out_anchors T board_matches "laptops" 1 (by decide)]

/-- Witness of C8: of the three sample boards the second and the third carry a note;
the anchors are numbered 1 and 2, they are printed with the ids `boards_ref1` and
`boards_ref2`, and the footnote section holds the blocks numbered 1 and 2 with the ids
`boards_note1` and `boards_note2`. -/
theorem footnote_numbering_witness :
    1 ≤ 2
    ∧ (print_supported_boards_wiki_helper sample_tags sample_matches "boards" 2
        sample_boards).out.filterMap Out.anchor = [("boards", 1), ("boards", 2)]
    ∧ ((print_supported_boards_wiki_helper sample_tags sample_matches "boards" 2
        sample_boards).out.filter (fun o => o.anchor.isSome)).map Out.render
      = [" <span id=\"boards_ref1\"><sup>[[#boards_note1|1]]</sup></span>\n",
          " <span id=\"boards_ref2\"><sup>[[#boards_note2|2]]</sup></span>\n"]
    ∧ (print_supported_boards_wiki_helper sample_tags sample_matches "boards" 2
        sample_boards).out.filterMap Out.notes_text
      = ["<span id=\"boards_note1\">1. [[#boards_ref1|&#x2191;]]</span>"
          ++ " <nowiki>first note</nowiki><br />\n"
          ++ "<span id=\"boards_note2\">2. [[#boards_ref2|&#x2191;]]</span>"
          ++ " <nowiki>second note</nowiki><br />\n"]
    ∧ (footnote_blocks "boards" 0 (notes_of sample_boards))[1]?
      = some ("<span id=\"boards_note2\">2. [[#boards_ref2|&#x2191;]]</span>"
          ++ " <nowiki>second note</nowiki><br />\n") :=
  ⟨by decide,
    (footnote_numbering sample_tags sample_matches "boards" 2 (by decide) sample_boards).1,
    by decide, by decide,
    ((footnote_numbering sample_tags sample_matches "boards" 2 (by decide)
      sample_boards).2.2.2.2.2.1 ["first note"] "second note" [] 2
      ("<span id=\"boards_note2\">2. [[#boards_ref2|&#x2191;]]</span>"
        ++ " <nowiki>second note</nowiki><br />\n")
      (by decide) (by decide) (by decide)).trans (by decide)⟩

/-- C9: for the record `bd` of a board table, the cell `Required option` of its row is
decided by the first record `m` of `board_matches`, in table order, whose vendor name
and board name are those of the board, whatever records follow `m`: when `m` has an
`lb_vendor` the cell is `-p internal:mainboard=` followed by `<lb_vendor>:<lb_part>`
of `m`, when it has none the cell is `&mdash;`; when no record matches, the scan stops
at the terminator, and with a terminator without `lb_vendor` the cell is `&mdash;`. -/
theorem required_option_first_match (T : test_state_tags) (board_matches : board_match_table)
    (devicetype : String) (cols : Nat) (hcols : 1 ≤ cols) (pre : List board_info)
    (bd : board_info) (post : List board_info) :
    ∃ row : Out,
      ((print_supported_boards_wiki_helper T board_matches devicetype cols
          (pre ++ bd :: post)).out.filterMap Out.board_row_item)[pre.length]? = some row
      ∧ row.row_key = some (bd.vendor, bd.name)
      ∧ (∀ (before : List board_match) (m : board_match) (after : List board_match),
          board_matches.entries = before ++ m :: after →
          (∀ x ∈ before, ¬(x.vendor_name = bd.vendor ∧ x.board_name = bd.name)) →
          m.vendor_name = bd.vendor → m.board_name = bd.name →
          row.required_option = some (match m.lb_vendor with
            | some lb_vendor => "-p internal:mainboard=" ++ lb_vendor ++ ":" ++ m.lb_part
            | none => "&mdash;"))
      ∧ ((∀ x ∈ board_matches.entries, ¬(x.vendor_name = bd.vendor ∧ x.board_name = bd.name)) →
          board_matches.sentinel_lb_vendor = none →
          row.required_option = some "&mdash;") := by
  obtain ⟨bg, -, hrow⟩ := boards_out_rows T board_matches devicetype cols hcols pre bd post
  refine ⟨_, hrow, rfl, ?_, ?_⟩
  · intro before m after hsplit hbefore hv hn
    have hfind : first_match board_matches bd.vendor bd.name = some m := by
      rw [first_match, List.find?_eq_some]
      refine ⟨by simp [hv, hn], before, after, hsplit, ?_⟩
      intro a ha
      rw [Bool.not_eq_true', decide_eq_false_iff_not]
      exact hbefore a ha
    rw [board_row_of_required_option, hfind]
  · intro hnone hs
    have hfind : first_match board_matches bd.vendor bd.name = none := by
      rw [first_match, List.find?_eq_none]
      intro x hx
      rw [decide_eq_true_eq]
      exact hnone x hx
    rw [board_row_of_required_option, hfind, hs]

/-- Witness of C9: in the sample table the second record is the first one for the
board `X1` of `Acme` and a later record matches it too, and the cell names the second
record; no record matches the third sample board, and its cell is `&mdash;`. -/
theorem required_option_first_match_witness :
    1 ≤ 2
    ∧ (∃ row : Out,
      ((print_supported_boards_wiki_helper sample_tags sample_matches "boards" 2
          ([] ++ scenario_board sample_tags :: [])).out.filterMap
            Out.board_row_item)[([] : List board_info).length]? = some row
      ∧ row.required_option = some "-p internal:mainboard=acme:x1")
    ∧ (∃ row : Out,
      ((print_supported_boards_wiki_helper sample_tags sample_matches "boards" 2
          ([scenario_board sample_tags, ⟨"Acme", "X2", 1, none, some "first note"⟩]
            ++ ⟨"Bar", "X3", 2, none, some "second note"⟩ :: [])).out.filterMap
            Out.board_row_item)[([scenario_board sample_tags,
              ⟨"Acme", "X2", 1, none, some "first note"⟩] : List board_info).length]?
        = some row
      ∧ row.required_option = some "&mdash;") := by
  refine ⟨by decide, ?_, ?_⟩
  · obtain ⟨row, h1, -, h3, -⟩ := required_option_first_match sample_tags sample_matches
      "boards" 2 (by decide) [] (scenario_board sample_tags) []
    exact ⟨row, h1, h3 [⟨"Foo", "X1", some "foo", "bar"⟩] ⟨"Acme", "X1", some "acme", "x1"⟩
      [⟨"Acme", "X1", some "other", "part"⟩, ⟨"Acme", "X3", none, ""⟩] rfl (by decide) rfl rfl⟩
  · obtain ⟨row, h1, -, -, h4⟩ := required_option_first_match sample_tags sample_matches
      "boards" 2 (by decide)
      [scenario_board sample_tags, ⟨"Acme", "X2", 1, none, some "first note"⟩]
      ⟨"Bar", "X3", 2, none, some "second note"⟩ []
    exact ⟨row, h1, h4 (by decide) rfl⟩

theorem scenario_row_render (T : test_state_tags) (b : board_match_table) (bg : String)
    (before : List board_match) (m : board_match) (after : List board_match)
    (hsplit : b.entries = before ++ m :: after)
    (hbefore : ∀ x ∈ before, ¬(x.vendor_name = "Acme" ∧ x.board_name = "X1"))
    (hm : m = ⟨"Acme", "X1", some "acme", "x1"⟩) :
    (board_row_of T b bg (scenario_board T)).render
      = "|- bgcolor=\"#" ++ bg
        ++ "\"\n| Acme || [http://x X1] || -p internal:mainboard=acme:x1 || \x7b\x7bOK\x7d\x7d" := by
  have hfind : first_match b "Acme" "X1" = some m := by
    rw [first_match, List.find?_eq_some]
    refine ⟨by simp [hm], before, after, hsplit, ?_⟩
    intro a ha
    rw [Bool.not_eq_true', decide_eq_false_iff_not]
    exact hbefore a ha
  simp only [board_row_of, scenario_board, lb_vendor_scan, lb_part_scan, hfind, hm,
    Out.render, test_state_to_template, if_true, Option.isSome_some]
  simp only [String.append_assoc]
  rfl

/-- C10, as amended: a board record with vendor `Acme`, name `X1`, URL `http://x`, no
note and status `OK`, whose first record in `board_matches` has the firmware vendor
`acme` and the part `x1`, is rendered as a row that contains `[http://x X1]`, the URL
and the name separated by a blank inside one pair of brackets,
`-p internal:mainboard=acme:x1` and `{{OK}}`; no footnote anchor follows the row, and
when no other record of the table carries a note, the output has no footnote anchor
and no footnote section. -/
theorem scenario_board_row (T : test_state_tags) (board_matches : board_match_table)
    (devicetype : String) (cols : Nat) (hcols : 1 ≤ cols) (pre post : List board_info)
    (before : List board_match) (m : board_match) (after : List board_match)
    (hsplit : board_matches.entries = before ++ m :: after)
    (hbefore : ∀ x ∈ before, ¬(x.vendor_name = "Acme" ∧ x.board_name = "X1"))
    (hm : m = ⟨"Acme", "X1", some "acme", "x1"⟩) :
    (∃ row : Out,
      ((print_supported_boards_wiki_helper T board_matches devicetype cols
          (pre ++ scenario_board T :: post)).out.filterMap Out.board_row_item)[pre.length]?
        = some row
      ∧ contains_text row.render "[http://x X1]"
      ∧ contains_text row.render "-p internal:mainboard=acme:x1"
      ∧ contains_text row.render "\x7b\x7bOK\x7d\x7d")
    ∧ (row_anchors (print_supported_boards_wiki_helper T board_matches devicetype cols
          (pre ++ scenario_board T :: post)).out)[pre.length]? = some (("Acme", "X1"), none)
    ∧ (notes_of pre = [] → notes_of post = [] →
        (print_supported_boards_wiki_helper T board_matches devicetype cols
          (pre ++ scenario_board T :: post)).out.filterMap Out.anchor = []
        ∧ (print_supported_boards_wiki_helper T board_matches devicetype cols
          (pre ++ scenario_board T :: post)).out.filterMap Out.notes_text = []) := by
  obtain ⟨bg, hbg, hrow⟩ := boards_out_rows T board_matches devicetype cols hcols pre
    (scenario_board T) post
  have hrender := scenario_row_render T board_matches bg before m after hsplit hbefore hm
  refine ⟨⟨_, hrow, ?_⟩, ?_, ?_⟩
  · rw [hrender]
    rcases hbg with rfl | rfl <;> decide
  · exact boards_out_row_anchors T board_matches devicetype cols hcols pre (scenario_board T) post
  · intro hpre hpost
    have hnotes : notes_of (pre ++ scenario_board T :: post) = [] := by
      simp only [notes_of] at hpre hpost
      simp [notes_of, hpre, hpost, scenario_board]
    rw [boards_out_anchors T board_matches devicetype cols hcols,
      boards_out_notes_text T board_matches devicetype cols hcols, hnotes]
    simp

/-- Witness of C10 as amended, on the sample table of matches and the one board. -/
theorem scenario_board_row_witness :
    1 ≤ 2
    ∧ (print_supported_boards_wiki_helper sample_tags sample_matches "boards" 2
        ([] ++ scenario_board sample_tags :: [])).out.filterMap Out.anchor = [] :=
  ⟨by decide,
    ((scenario_board_row sample_tags sample_matches "boards" 2 (by decide) [] []
      [⟨"Foo", "X1", some "foo", "bar"⟩] ⟨"Acme", "X1", some "acme", "x1"⟩
      [⟨"Acme", "X1", some "other", "part"⟩, ⟨"Acme", "X3", none, ""⟩] rfl (by decide)
      rfl).2.2 rfl rfl).1⟩

/-- C10 as stated fails: for the sample table of matches and the one board of the
scenario, the only board row of the output is the text below, in which the name `X1`
stands inside the brackets after the URL and a blank; the text `[http://x]X1` does not
occur in it. -/
theorem scenario_row_lacks_text :
    ((print_supported_boards_wiki_helper sample_tags sample_matches "boards" 2
        [scenario_board sample_tags]).out.filterMap Out.board_row_item).map Out.render
      = ["|- bgcolor=\"#eeeeee\"\n| Acme || [http://x X1] || -p internal:mainboard=acme:x1 || \x7b\x7bOK\x7d\x7d"]
    ∧ ¬contains_text
        "|- bgcolor=\"#eeeeee\"\n| Acme || [http://x X1] || -p internal:mainboard=acme:x1 || \x7b\x7bOK\x7d\x7d"
        "[http://x]X1" := by
  decide

/-! ## The device printers -/

theorem count_devs_loop_eq (devs : List dev_entry) :
    ∀ count : Nat, count_devs_loop devs count = count + (devs_before_sentinel devs).length := by
  induction devs with
  | nil => intro count; simp [count_devs_loop, devs_before_sentinel]
  | cons d rest ih =>
    intro count
    by_cases h : d.vendor_id = 0
    · simp [count_devs_loop, devs_before_sentinel, h]
    · simp only [devs_before_sentinel] at ih
      simp [count_devs_loop, devs_before_sentinel, h, ih]
      omega

theorem devs_helper_loop_succ (T : test_state_tags) (name : String) (count : Nat) (c : Bool)
    (devs : List dev_entry) :
    ∀ i : Nat, 0 < i →
      devs_helper_loop T name count c devs i
        = ⟨(devs_before_sentinel devs).flatMap
            (fun d => [Out.dev_bgcolor (bgcolor_of c), dev_row_of T d]), [], some ()⟩ := by
  induction devs with
  | nil => intro i _; simp [devs_helper_loop, devs_before_sentinel, Run.ret]
  | cons d rest ih =>
    intro i hi
    by_cases h : d.vendor_id = 0
    · simp [devs_helper_loop, devs_before_sentinel, h, Run.ret]
    · have hi0 : i ≠ 0 := by omega
      have hd : (decide (d.vendor_id ≠ 0)) = true := by simpa using h
      simp only [devs_before_sentinel] at ih
      simp only [devs_helper_loop, ne_eq, h, not_false_eq_true, if_true, hi0, if_false,
        run_bind_eq, run_pure_eq, and_then_ret, and_then_printf, ih (i + 1) (by omega),
        devs_before_sentinel, List.takeWhile_cons, hd, List.flatMap_cons, bgcolor_of,
        dev_row_of, List.cons_append, List.nil_append]
      simp

theorem devs_helper_loop_zero (T : test_state_tags) (name : String) (count : Nat) (c : Bool)
    (devs : List dev_entry) (hcount : count = (devs_before_sentinel devs).length) :
    devs_helper_loop T name count c devs 0
      = ⟨group_rows T name (bgcolor_of c) (devs_before_sentinel devs), [], some ()⟩ := by
  subst hcount
  cases devs with
  | nil => simp [devs_helper_loop, devs_before_sentinel, group_rows, Run.ret]
  | cons d rest =>
    by_cases h : d.vendor_id = 0
    · simp [devs_helper_loop, devs_before_sentinel, group_rows, h, Run.ret]
    · have hd : (decide (d.vendor_id ≠ 0)) = true := by simpa using h
      simp only [devs_helper_loop, ne_eq, h, not_false_eq_true, if_true,
        run_bind_eq, run_pure_eq, and_then_ret, and_then_printf, Nat.zero_add,
        devs_helper_loop_succ T name _ c rest 1 (by omega)]
      simp [devs_before_sentinel, h, group_rows, dev_row_of, bgcolor_of]

theorem helper_eq (T : test_state_tags) (prog : programmer_entry) (c : Bool) :
    print_supported_devs_wiki_helper T prog c
      = ⟨group_rows T prog.name (bgcolor_of (!c)) (devs_before_sentinel prog.dev), [],
          some (!c)⟩ := by
  have hcount : count_supported_devs_wiki prog.dev = (devs_before_sentinel prog.dev).length := by
    rw [count_supported_devs_wiki, count_devs_loop_eq]; simp
  simp only [print_supported_devs_wiki_helper, run_bind_eq, run_pure_eq,
    devs_helper_loop_zero T prog.name _ (!c) prog.dev hcount, Run.and_then, Run.ret]
  simp

theorem toggled_succ (n : Nat) (c : Bool) : toggled (n + 1) c = toggled n (!c) := by
  unfold toggled
  rcases Nat.mod_two_eq_zero_or_one n with h | h
  · have : (n + 1) % 2 = 1 := by omega
    simp [h, this]
  · have : (n + 1) % 2 = 0 := by omega
    simp [h, this]

theorem toggled_zero (c : Bool) : toggled 0 c = c := by
  simp [toggled]

theorem devs_section_loop_eq (T : test_state_tags) (type : programmer_type)
    (table : List programmer_entry) :
    ∀ (c : Bool) (k : Nat),
      devs_section_loop T type table (toggled k c)
        = ⟨((entries_of_type type table).enumFrom k).flatMap (fun p =>
              group_rows T p.2.name (bgcolor_of (toggled (p.1 + 1) c))
                (devs_before_sentinel p.2.dev)), [],
            some (toggled (k + (entries_of_type type table).length) c)⟩ := by
  induction table with
  | nil => intro c k; simp [devs_section_loop, entries_of_type, Run.ret]
  | cons prog rest ih =>
    intro c k
    simp only [entries_of_type] at ih
    by_cases h : prog.type = type
    · have hnext : (!toggled k c) = toggled (k + 1) c := by
        rw [toggled_succ]
        unfold toggled; split_ifs <;> simp
      simp only [devs_section_loop, h, if_true, run_bind_eq, helper_eq, Run.and_then, hnext,
        ih c (k + 1), entries_of_type, List.filter_cons, decide_True, List.enumFrom_cons,
        List.flatMap_cons, List.length_cons, List.nil_append]
      simp only [Nat.add_assoc, Nat.add_comm 1, true_and]
    · simp only [devs_section_loop, h, if_false, ih c k, entries_of_type, List.filter_cons,
        decide_False]
      simp

theorem other_loop_eq (table : List programmer_entry) :
    ∀ (c : Bool) (k : Nat),
      other_loop table (toggled k c)
        = ⟨((noted_others table).enumFrom k).flatMap (fun p =>
              [Out.other_bgcolor (bgcolor_of (toggled (p.1 + 1) c)),
                Out.other_row p.2.1 p.2.2]), [],
            some (toggled (k + (noted_others table).length) c)⟩ := by
  induction table with
  | nil => intro c k; simp [other_loop, noted_others, Run.ret]
  | cons prog rest ih =>
    intro c k
    simp only [noted_others] at ih
    have hnext : (!toggled k c) = toggled (k + 1) c := by
      rw [toggled_succ]
      unfold toggled; split_ifs <;> simp
    by_cases h : prog.type = programmer_type.OTHER
    · cases hn : prog.note with
      | none =>
        simp only [other_loop, h, if_true, hn, ih c k, noted_others, List.filterMap_cons,
          Option.map_none']
      | some note =>
        simp only [other_loop, h, if_true, hn, run_bind_eq, and_then_printf, hnext,
          ih c (k + 1), noted_others, List.filterMap_cons, Option.map_some',
          List.enumFrom_cons, List.flatMap_cons, List.length_cons, bgcolor_of,
          List.cons_append, List.nil_append, Nat.add_assoc, Nat.add_comm 1]
    · simp only [other_loop, h, if_false, ih c k, noted_others, List.filterMap_cons]

theorem count_devs_by_type_eq (table : List programmer_entry) :
    ∀ n : devs_counts,
      count_devs_by_type table n
        = ⟨n.pci_count + devices_of_type .PCI table, n.usb_count + devices_of_type .USB table⟩ := by
  have hcount : ∀ devs, count_supported_devs_wiki devs = (devs_before_sentinel devs).length := by
    intro devs
    rw [count_supported_devs_wiki, count_devs_loop_eq]; simp
  induction table with
  | nil => intro n; simp [count_devs_by_type, devices_of_type, entries_of_type]
  | cons prog rest ih =>
    intro n
    simp only [devices_of_type, entries_of_type] at ih
    cases h : prog.type <;>
      simp [count_devs_by_type, h, ih, hcount, devices_of_type, entries_of_type,
        List.filter_cons, Nat.add_assoc]

theorem countP_group_rows (T : test_state_tags) (name bgcolor : String) (ds : List dev_entry) :
    (group_rows T name bgcolor ds).countP Out.is_dev_row = ds.length := by
  cases ds with
  | nil => rfl
  | cons d rest =>
    have h : ∀ l : List dev_entry,
        (l.flatMap (fun d => [Out.dev_bgcolor bgcolor, dev_row_of T d])).countP Out.is_dev_row
          = l.length := by
      intro l
      induction l with
      | nil => rfl
      | cons x xs ih =>
        simp only [List.flatMap_cons, List.countP_append, ih, List.length_cons]
        simp [List.countP_cons, Out.is_dev_row, dev_row_of, Nat.add_comm]
    simp only [group_rows, List.countP_cons, h, List.length_cons]
    simp [Out.is_dev_row, dev_row_of]

theorem countP_groups_rows (T : test_state_tags) (progs : List programmer_entry) (c : Bool) :
    ∀ k : Nat,
      ((progs.enumFrom k).flatMap (fun p =>
        group_rows T p.2.name (bgcolor_of (toggled (p.1 + 1) c))
          (devs_before_sentinel p.2.dev))).countP Out.is_dev_row
        = (progs.map (fun prog => (devs_before_sentinel prog.dev).length)).sum := by
  induction progs with
  | nil => intro k; rfl
  | cons prog rest ih =>
    intro k
    simp only [List.enumFrom_cons, List.flatMap_cons, List.countP_append, countP_group_rows,
      ih (k + 1), List.map_cons, List.sum_cons]

theorem and_then_mk {α β : Type} (out : List Out) (err : List Err) (a : α) (f : α → Run β) :
    Run.and_then ⟨out, err, some a⟩ f = ⟨out ++ (f a).out, err ++ (f a).err, (f a).val⟩ := by
  simp [Run.and_then]

theorem devs_wiki_eq (T : test_state_tags) (table : List programmer_entry) (s : devs_statics) :
    print_supported_devs_wiki T table s
      = ⟨Out.pci_head (devices_of_type .PCI table)
          :: (groups_rows T (entries_of_type .PCI table) s.helper_c
            ++ Out.devs_end :: Out.usb_head (devices_of_type .USB table)
              :: (groups_rows T (entries_of_type .USB table)
                    (toggled (entries_of_type .PCI table).length s.helper_c)
                ++ Out.devs_end :: Out.other_head :: Out.other_th
                  :: (other_rows (noted_others table) s.other_c ++ [Out.devs_end]))), [],
          some ⟨toggled ((entries_of_type .PCI table).length
              + (entries_of_type .USB table).length) s.helper_c,
            toggled (noted_others table).length s.other_c⟩⟩ := by
  have h1 := devs_section_loop_eq T .PCI table s.helper_c 0
  have h2 := devs_section_loop_eq T .USB table
    (toggled (entries_of_type .PCI table).length s.helper_c) 0
  have h3 := other_loop_eq table s.other_c 0
  simp only [toggled_zero, Nat.zero_add] at h1 h2 h3
  have htt : ∀ (a b : Nat) (c : Bool), toggled b (toggled a c) = toggled (a + b) c := by
    intro a b c
    unfold toggled
    rcases Nat.mod_two_eq_zero_or_one a with ha | ha <;>
      rcases Nat.mod_two_eq_zero_or_one b with hb | hb
    · have : (a + b) % 2 = 0 := by omega
      simp [ha, hb, this]
    · have : (a + b) % 2 = 1 := by omega
      simp [ha, hb, this]
    · have : (a + b) % 2 = 1 := by omega
      simp [ha, hb, this]
    · have : (a + b) % 2 = 0 := by omega
      simp [ha, hb, this]
  simp only [print_supported_devs_wiki, run_bind_eq, run_pure_eq, and_then_printf,
    count_devs_by_type_eq, Nat.zero_add, h1, h2, h3, and_then_mk, groups_rows,
    other_rows, htt, List.append_nil, List.nil_append, List.cons_append, List.append_assoc]
  simp [Run.ret]

theorem group_rows_items (T : test_state_tags) (name bgcolor : String) (ds : List dev_entry) :
    ∀ o ∈ group_rows T name bgcolor ds, o.is_dev_item = true := by
  cases ds with
  | nil => simp [group_rows]
  | cons d rest =>
    intro o ho
    simp only [group_rows, List.mem_cons, List.mem_flatMap] at ho
    rcases ho with rfl | rfl | rfl | ⟨x, -, hx⟩
    · rfl
    · rfl
    · rfl
    · simp only [List.mem_cons, List.mem_singleton, List.not_mem_nil, or_false] at hx
      rcases hx with rfl | rfl <;> rfl

theorem groups_rows_items (T : test_state_tags) (progs : List programmer_entry) (c : Bool) :
    ∀ o ∈ groups_rows T progs c, o.is_dev_item = true := by
  intro o ho
  simp only [groups_rows, List.mem_flatMap] at ho
  obtain ⟨p, -, hp⟩ := ho
  exact group_rows_items T _ _ _ o hp

theorem groups_rows_nil (T : test_state_tags) (progs : List programmer_entry) (c : Bool) :
    (progs.map (fun prog => (devs_before_sentinel prog.dev).length)).sum = 0 →
      groups_rows T progs c = [] := by
  intro h
  have hc := countP_groups_rows T progs c 0
  rw [h] at hc
  unfold groups_rows
  rw [List.flatMap_eq_nil_iff]
  intro p hp
  have hmem : p.2 ∈ progs := by
    have := List.mem_map_of_mem Prod.snd hp
    rwa [List.enumFrom_map_snd] at this
  have hz : (devs_before_sentinel p.2.dev).length = 0 := by
    have hle : (devs_before_sentinel p.2.dev).length
        ≤ (progs.map (fun prog => (devs_before_sentinel prog.dev).length)).sum :=
      List.single_le_sum (fun _ _ => Nat.zero_le _) _
        (List.mem_map_of_mem (fun prog => (devs_before_sentinel prog.dev).length) hmem)
    rw [h] at hle
    omega
  rw [List.length_eq_zero] at hz
  rw [hz]; rfl

theorem other_color_of_dev_item (o : Out) (h : o.is_dev_item = true) :
    o.other_color = none ∧ o.other_cells = none ∧ o ≠ Out.other_head := by
  cases o <;> simp_all [Out.is_dev_item, Out.other_color, Out.other_cells]

theorem filterMap_groups_rows (T : test_state_tags) (progs : List programmer_entry) (c : Bool) :
    (groups_rows T progs c).filterMap Out.other_color = []
    ∧ (groups_rows T progs c).filterMap Out.other_cells = [] := by
  constructor <;> rw [List.filterMap_eq_nil_iff] <;> intro o ho
  · exact (other_color_of_dev_item o (groups_rows_items T progs c o ho)).1
  · exact (other_color_of_dev_item o (groups_rows_items T progs c o ho)).2.1

theorem filterMap_other_rows (noted : List (String × String)) (c : Bool) :
    ∀ k : Nat,
      ((noted.enumFrom k).flatMap (fun p =>
          [Out.other_bgcolor (bgcolor_of (toggled (p.1 + 1) c)),
            Out.other_row p.2.1 p.2.2])).filterMap Out.other_color
        = (List.range' (k + 1) noted.length).map (fun j => bgcolor_of (toggled j c))
      ∧ ((noted.enumFrom k).flatMap (fun p =>
          [Out.other_bgcolor (bgcolor_of (toggled (p.1 + 1) c)),
            Out.other_row p.2.1 p.2.2])).filterMap Out.other_cells = noted := by
  induction noted with
  | nil => intro k; simp
  | cons x rest ih =>
    intro k
    obtain ⟨h1, h2⟩ := ih (k + 1)
    constructor
    · simp only [List.enumFrom_cons, List.flatMap_cons, List.filterMap_append, h1,
        List.length_cons, List.range'_succ, List.map_cons]
      simp [Out.other_color]
    · simp only [List.enumFrom_cons, List.flatMap_cons, List.filterMap_append, h2]
      simp [Out.other_cells]

theorem devs_wiki_other (T : test_state_tags) (table : List programmer_entry) (s : devs_statics) :
    (print_supported_devs_wiki T table s).out.filterMap Out.other_color
      = (List.range' 1 (noted_others table).length).map (fun j => bgcolor_of (toggled j s.other_c))
    ∧ (print_supported_devs_wiki T table s).out.filterMap Out.other_cells = noted_others table := by
  obtain ⟨a1, a2⟩ := filterMap_groups_rows T (entries_of_type .PCI table) s.helper_c
  obtain ⟨b1, b2⟩ := filterMap_groups_rows T (entries_of_type .USB table)
    (toggled (entries_of_type .PCI table).length s.helper_c)
  obtain ⟨c1, c2⟩ := filterMap_other_rows (noted_others table) s.other_c 0
  rw [devs_wiki_eq]
  simp only [other_rows, List.filterMap_cons, List.filterMap_append, a1, a2, b1, b2, c1, c2,
    Out.other_color, Out.other_cells, List.filterMap_nil, List.nil_append, List.append_nil,
    Nat.zero_add]
  exact ⟨trivial, trivial⟩

theorem bgcolor_of_inj (a b : Bool) (h : bgcolor_of a = bgcolor_of b) : a = b := by
  cases a <;> cases b <;> first | rfl | exact absurd h (by decide)

theorem toggled_not (j : Nat) (c : Bool) : toggled j (!c) = !toggled j c := by
  unfold toggled; split_ifs <;> simp

theorem toggled_of_even (n : Nat) (c : Bool) (h : n % 2 = 0) : toggled n c = c := by
  simp [toggled, h]

theorem toggled_of_odd (n : Nat) (c : Bool) (h : n % 2 = 1) : toggled n c = !c := by
  simp [toggled, h]

theorem group_rows_nil (T : test_state_tags) (name bgcolor : String) :
    group_rows T name bgcolor [] = [] := rfl

theorem group_rows_cons (T : test_state_tags) (name bgcolor : String) (d : dev_entry)
    (rest : List dev_entry) :
    group_rows T name bgcolor (d :: rest)
      = Out.dev_bgcolor bgcolor :: Out.dev_rowspan (rest.length + 1) name :: dev_row_of T d
        :: rest.flatMap (fun d => [Out.dev_bgcolor bgcolor, dev_row_of T d]) := rfl

theorem group_rows_length (T : test_state_tags) (name bgcolor : String) (ds : List dev_entry) :
    (group_rows T name bgcolor ds).length = 2 * ds.length + (if ds.length = 0 then 0 else 1) := by
  cases ds with
  | nil => rfl
  | cons d rest =>
    have h : (rest.flatMap (fun d => [Out.dev_bgcolor bgcolor, dev_row_of T d])).length
        = 2 * rest.length := by
      induction rest with
      | nil => rfl
      | cons x xs ih => simp only [List.flatMap_cons, List.length_append, ih, List.length_cons,
          List.length_nil]; omega
    simp only [group_rows_cons, List.length_cons, h]
    simp; omega

theorem groups_flip (T : test_state_tags) (progs : List programmer_entry) (c : Bool) :
    ∀ k : Nat,
      ((progs.enumFrom k).flatMap (fun p =>
          group_rows T p.2.name (bgcolor_of (toggled (p.1 + 1) c))
            (devs_before_sentinel p.2.dev))
        = (progs.enumFrom k).flatMap (fun p =>
          group_rows T p.2.name (bgcolor_of (toggled (p.1 + 1) (!c)))
            (devs_before_sentinel p.2.dev)))
      ↔ (progs.map (fun prog => (devs_before_sentinel prog.dev).length)).sum = 0 := by
  induction progs with
  | nil => intro k; simp
  | cons prog rest ih =>
    intro k
    simp only [List.enumFrom_cons, List.flatMap_cons, List.map_cons, List.sum_cons]
    cases hds : devs_before_sentinel prog.dev with
    | nil =>
      simp only [group_rows_nil, List.nil_append, ih (k + 1), List.length_nil, Nat.zero_add]
    | cons d ds =>
      constructor
      · intro h
        simp only [group_rows_cons, List.cons_append, List.cons.injEq,
          Out.dev_bgcolor.injEq] at h
        have := bgcolor_of_inj _ _ h.1
        rw [toggled_not] at this
        cases htc : toggled (k + 1) c <;> simp [htc] at this
      · intro h
        simp at h

theorem groups_rows_length (T : test_state_tags) (progs : List programmer_entry) (c c2 : Bool) :
    ∀ k : Nat,
      ((progs.enumFrom k).flatMap (fun p =>
          group_rows T p.2.name (bgcolor_of (toggled (p.1 + 1) c))
            (devs_before_sentinel p.2.dev))).length
        = ((progs.enumFrom k).flatMap (fun p =>
          group_rows T p.2.name (bgcolor_of (toggled (p.1 + 1) c2))
            (devs_before_sentinel p.2.dev))).length := by
  induction progs with
  | nil => intro k; rfl
  | cons prog rest ih =>
    intro k
    simp only [List.enumFrom_cons, List.flatMap_cons, List.length_append, ih (k + 1),
      group_rows_length]

theorem device_section_eq (T : test_state_tags) (table : List programmer_entry)
    (s : devs_statics) :
    device_section (print_supported_devs_wiki T table s).out
        = Out.pci_head (devices_of_type .PCI table)
          :: (groups_rows T (entries_of_type .PCI table) s.helper_c
            ++ Out.devs_end :: Out.usb_head (devices_of_type .USB table)
              :: (groups_rows T (entries_of_type .USB table)
                    (toggled (entries_of_type .PCI table).length s.helper_c)
                ++ [Out.devs_end]))
    ∧ other_section (print_supported_devs_wiki T table s).out
        = Out.other_head :: Out.other_th
          :: (other_rows (noted_others table) s.other_c ++ [Out.devs_end]) := by
  have hsplit : (print_supported_devs_wiki T table s).out
      = (Out.pci_head (devices_of_type .PCI table)
          :: (groups_rows T (entries_of_type .PCI table) s.helper_c
            ++ Out.devs_end :: Out.usb_head (devices_of_type .USB table)
              :: (groups_rows T (entries_of_type .USB table)
                    (toggled (entries_of_type .PCI table).length s.helper_c)
                ++ [Out.devs_end])))
        ++ Out.other_head :: Out.other_th
          :: (other_rows (noted_others table) s.other_c ++ [Out.devs_end]) := by
    rw [devs_wiki_eq]; simp
  have hpre : ∀ a ∈ (Out.pci_head (devices_of_type .PCI table)
          :: (groups_rows T (entries_of_type .PCI table) s.helper_c
            ++ Out.devs_end :: Out.usb_head (devices_of_type .USB table)
              :: (groups_rows T (entries_of_type .USB table)
                    (toggled (entries_of_type .PCI table).length s.helper_c)
                ++ [Out.devs_end]))), (decide (a ≠ Out.other_head)) = true := by
    intro a ha
    simp only [List.mem_cons, List.mem_append, List.mem_singleton, List.not_mem_nil,
      or_false] at ha
    rw [decide_eq_true_eq]
    rcases ha with rfl | h | rfl | rfl | h | rfl
    · simp
    · exact (other_color_of_dev_item a (groups_rows_items T _ _ a h)).2.2
    · simp
    · simp
    · exact (other_color_of_dev_item a (groups_rows_items T _ _ a h)).2.2
    · simp
  rw [hsplit, device_section, other_section, List.takeWhile_append_of_pos hpre,
    List.dropWhile_append_of_pos hpre]
  simp

theorem statics_after_eq (T : test_state_tags) (table : List programmer_entry)
    (s : devs_statics) :
    statics_after T table s
      = ⟨toggled ((entries_of_type .PCI table).length + (entries_of_type .USB table).length)
          s.helper_c, toggled (noted_others table).length s.other_c⟩ := by
  rw [statics_after, devs_wiki_eq]

theorem other_rows_flip (noted : List (String × String)) (c : Bool) (h : noted ≠ []) :
    other_rows noted c ≠ other_rows noted (!c) := by
  cases noted with
  | nil => exact absurd rfl h
  | cons x rest =>
    intro heq
    simp only [other_rows, List.enumFrom_cons, List.flatMap_cons, List.cons_append,
      List.cons.injEq, Out.other_bgcolor.injEq] at heq
    have := bgcolor_of_inj _ _ heq.1
    rw [toggled_not] at this
    cases htc : toggled (0 + 1) c <;> simp [htc] at this

theorem device_section_two_runs (T : test_state_tags) (table : List programmer_entry)
    (s : devs_statics) :
    device_section (print_supported_devs_wiki T table s).out
        = device_section (print_supported_devs_wiki T table (statics_after T table s)).out
      ↔ ((entries_of_type .PCI table).length + (entries_of_type .USB table).length) % 2 = 0
        ∨ devices_of_type .PCI table + devices_of_type .USB table = 0 := by
  rw [(device_section_eq T table s).1, (device_section_eq T table _).1, statics_after_eq]
  rcases Nat.mod_two_eq_zero_or_one
    ((entries_of_type .PCI table).length + (entries_of_type .USB table).length) with hn | hn
  · simp only [toggled_of_even _ _ hn, hn, true_or]
  · have hne : ¬((entries_of_type .PCI table).length
        + (entries_of_type .USB table).length) % 2 = 0 := by omega
    simp only [toggled_of_odd _ _ hn, hne, false_or, toggled_not, List.cons.injEq, true_and]
    have h1 := groups_flip T (entries_of_type .PCI table) s.helper_c 0
    have h2 := groups_flip T (entries_of_type .USB table)
      (toggled (entries_of_type .PCI table).length s.helper_c) 0
    have hlen := groups_rows_length T (entries_of_type .PCI table) s.helper_c (!s.helper_c) 0
    constructor
    · intro h
      obtain ⟨ha, hb⟩ := List.append_inj h hlen
      simp only [List.cons.injEq, true_and] at hb
      have hb2 := List.append_cancel_right hb
      have e1 := h1.mp ha
      have e2 := h2.mp hb2
      simp only [devices_of_type, e1, e2]
    · intro h
      have e1 : devices_of_type .PCI table = 0 := by omega
      have e2 : devices_of_type .USB table = 0 := by omega
      simp only [devices_of_type] at e1 e2
      have ha := h1.mpr e1
      have hb := h2.mpr e2
      simp only [groups_rows, ha, hb]

theorem other_section_two_runs (T : test_state_tags) (table : List programmer_entry)
    (s : devs_statics) :
    other_section (print_supported_devs_wiki T table s).out
        = other_section (print_supported_devs_wiki T table (statics_after T table s)).out
      ↔ (noted_others table).length % 2 = 0 := by
  rw [(device_section_eq T table s).2, (device_section_eq T table _).2, statics_after_eq]
  rcases Nat.mod_two_eq_zero_or_one (noted_others table).length with hn | hn
  · simp only [toggled_of_even _ _ hn, hn]
  · have hne : ¬(noted_others table).length % 2 = 0 := by omega
    have hnil : noted_others table ≠ [] := by
      intro h0; rw [h0] at hn; simp at hn
    simp only [toggled_of_odd _ _ hn, hne, iff_false, List.cons.injEq, true_and]
    intro h
    exact other_rows_flip _ _ hnil (List.append_cancel_right h)

/-! ## More on the column layout -/

theorem c_div_zero (a : Nat) : c_div a 0 = ⟨[], [], none⟩ := by
  simp [c_div]

theorem ceil_div_ceil_div_of_dvd (n cols : Nat) (hcols : 1 ≤ cols) (hn : 1 ≤ n)
    (hd : cols ∣ n) : ceil_div n (ceil_div n cols) = cols := by
  obtain ⟨q, rfl⟩ := hd
  have hq : 1 ≤ q := by
    rcases Nat.eq_zero_or_pos q with h | h
    · rw [h] at hn; simp at hn
    · exact h
  have h1 : ceil_div (cols * q) cols = q := by
    rw [ceil_div_eq _ _ hcols, Nat.mul_mod_right, Nat.mul_div_cancel_left _ (by omega)]
    simp
  rw [h1, ceil_div_eq _ _ hq, Nat.mul_mod_left, Nat.mul_div_cancel _ (by omega)]
  simp

theorem chips_tables_le (T : test_state_tags) (ftt : Nat → String) (fs : List flashchip)
    (cols : Nat) : tables_opened (print_supported_chips_wiki T ftt fs cols).out ≤ cols := by
  rcases Nat.eq_zero_or_pos cols with h0 | hpos
  · subst h0
    simp only [print_supported_chips_wiki, run_bind_eq, c_div_zero, and_then_stop]
    exact Nat.le_refl _
  · cases fs with
    | nil =>
      rw [(chips_run_empty T ftt cols hpos).2]
      exact Nat.zero_le _
    | cons f rest =>
      rw [layout_tables_opened _ _ cols hpos (by simp)
        (chips_run T ftt (f :: rest) cols hpos (by simp)).2.1]
      exact ceil_div_ceil_div_le _ _ hpos (by simp)

theorem chipsets_tables_le (T : test_state_tags) (es : List penable) (cols : Nat) :
    tables_opened (print_supported_chipsets_wiki T es cols).out ≤ cols := by
  rcases Nat.eq_zero_or_pos cols with h0 | hpos
  · subst h0
    simp only [print_supported_chipsets_wiki, run_bind_eq, c_div_zero, and_then_stop]
    exact Nat.le_refl _
  · cases es with
    | nil =>
      rw [(chipsets_run_empty T cols hpos).2]
      exact Nat.zero_le _
    | cons e rest =>
      rw [layout_tables_opened _ _ cols hpos (by simp)
        (chipsets_run T (e :: rest) cols hpos (by simp)).2.1]
      exact ceil_div_ceil_div_le _ _ hpos (by simp)

theorem boards_tables_le (T : test_state_tags) (b : board_match_table) (d : String)
    (bs : List board_info) (cols : Nat) :
    tables_opened (print_supported_boards_wiki_helper T b d cols bs).out ≤ cols := by
  rcases Nat.eq_zero_or_pos cols with h0 | hpos
  · subst h0
    simp only [print_supported_boards_wiki_helper, run_bind_eq, c_div_zero, and_then_stop]
    exact Nat.le_refl _
  · cases bs with
    | nil =>
      rw [(boards_run_empty T b d cols hpos).2]
      exact Nat.zero_le _
    | cons bd rest =>
      rw [layout_tables_opened _ _ cols hpos (by simp)
        (boards_run T b d (bd :: rest) cols hpos (by simp)).2.1]
      exact ceil_div_ceil_div_le _ _ hpos (by simp)

/-! ## The voltage text -/

theorem toDigitsCore_acc_le (b : Nat) : ∀ (f n : Nat) (acc : List Char),
    acc.length ≤ (Nat.toDigitsCore b f n acc).length := by
  intro f
  induction f with
  | zero => intro n acc; simp [Nat.toDigitsCore]
  | succ f ih =>
    intro n acc
    simp only [Nat.toDigitsCore]
    split
    · simp
    · exact Nat.le_trans (by simp) (ih _ _)

theorem repr_length_one (q : Nat) (h : q < 10) : (toString q).length = 1 := by
  interval_cases q <;> rfl

theorem repr_length_ge_two (q : Nat) (h : 10 ≤ q) : 2 ≤ (toString q).length := by
  show 2 ≤ (Nat.repr q).length
  obtain ⟨p, rfl⟩ : ∃ p, q = p + 1 := ⟨q - 1, by omega⟩
  have h1 : (p + 1) / 10 ≠ 0 := by omega
  simp only [Nat.repr, Nat.toDigits, List.asString, String.length, Nat.toDigitsCore, h1,
    if_false]
  split
  · simp
  · exact Nat.le_trans (by simp) (toDigitsCore_acc_le _ _ _ _)

theorem frac_digits : ∀ r, r < 1000 →
    List.replicate (3 - (Nat.toDigits 10 r).length) '0' ++ Nat.toDigits 10 r
      = [Nat.digitChar (r / 100 % 10), Nat.digitChar (r / 10 % 10), Nat.digitChar (r % 10)] := by
  decide

theorem fmt_0_03f_milli_eq (mv : Nat) : fmt_0_03f_milli mv = volts_three_decimals mv := by
  have h := frac_digits (mv % 1000) (Nat.mod_lt _ (by decide))
  have e1 : mv % 1000 / 100 % 10 = mv / 100 % 10 := by omega
  have e2 : mv % 1000 / 10 % 10 = mv / 10 % 10 := by omega
  have e3 : mv % 1000 % 10 = mv % 10 := by omega
  rw [e1, e2, e3] at h
  simp only [fmt_0_03f_milli, volts_three_decimals, h]

theorem fmt_0_03f_milli_length (mv : Nat) :
    (fmt_0_03f_milli mv).length = (toString (mv / 1000)).length + 4 := by
  rw [fmt_0_03f_milli_eq]
  simp only [volts_three_decimals, String.length_append]
  rfl

theorem fmt_0_03f_milli_ne (mv : Nat) : fmt_0_03f_milli mv ≠ "?" := by
  intro h
  have h1 := fmt_0_03f_milli_length mv
  rw [h] at h1
  have h2 : ("?" : String).length = 1 := rfl
  omega

theorem fmt_0_03f_milli_fits (mv : Nat) (h : mv < 10000) :
    sprintf_fits 6 (fmt_0_03f_milli mv) := by
  have hlen := fmt_0_03f_milli_length mv
  have h1 := repr_length_one (mv / 1000) (by omega)
  unfold sprintf_fits
  omega

theorem voltage_rule_holds (f : flashchip) :
    voltage_rule f
      (if f.voltage.min ≠ 0 then fmt_0_03f_milli f.voltage.min else "?",
        if f.voltage.max ≠ 0 then fmt_0_03f_milli f.voltage.max else "?") := by
  refine ⟨?_, ?_, ?_, ?_⟩
  · by_cases h : f.voltage.min = 0
    · simp [h]
    · simp [h, fmt_0_03f_milli_ne]
  · intro h
    simp [h, fmt_0_03f_milli_eq]
  · by_cases h : f.voltage.max = 0
    · simp [h]
    · simp [h, fmt_0_03f_milli_ne]
  · intro h
    simp [h, fmt_0_03f_milli_eq]

theorem chips_loop_voltage (T : test_state_tags) (ftt : Nat → String) (L : Nat) (hL : 0 < L)
    (fs : List flashchip) :
    ∀ (i : Nat) (old : Option flashchip) (c : Int),
      (chips_loop T ftt L fs i old c).out.filterMap Out.voltage_cells
        = fs.map (fun f =>
            (if f.voltage.min ≠ 0 then fmt_0_03f_milli f.voltage.min else "?",
              if f.voltage.max ≠ 0 then fmt_0_03f_milli f.voltage.max else "?")) := by
  induction fs with
  | nil => intro i old c; simp [chips_loop, Run.ret]
  | cons f rest ih =>
    intro i old c
    simp only [chips_loop, c_mod_pos _ _ hL, run_bind_eq, run_pure_eq, and_then_ret,
      and_then_printf, ite_printf, ite_printf_mk]
    simp [List.filterMap_append, filterMap_ite_singleton, ih, Out.voltage_cells]

theorem chips_run_voltage (T : test_state_tags) (ftt : Nat → String) (fs : List flashchip)
    (cols : Nat) (hcols : 1 ≤ cols) :
    (print_supported_chips_wiki T ftt fs cols).out.filterMap Out.voltage_cells
      = fs.map (fun f =>
          (if f.voltage.min ≠ 0 then fmt_0_03f_milli f.voltage.min else "?",
            if f.voltage.max ≠ 0 then fmt_0_03f_milli f.voltage.max else "?")) := by
  rcases Nat.eq_zero_or_pos fs.length with h0 | hn
  · rw [List.length_eq_zero.1 h0, (chips_run_empty T ftt cols hcols).2]
    rfl
  · have hL := ceil_div_pos fs.length cols hn hcols
    obtain ⟨h1, -, -, -⟩ := chips_loop_spec T ftt (ceil_div fs.length cols) hL fs 0 none 1
    have h5 := chips_loop_voltage T ftt (ceil_div fs.length cols) hL fs 0 none 1
    simp only [print_supported_chips_wiki, c_div_pos _ _ hcols, c_mod_pos _ _ hcols,
      run_bind_eq, run_pure_eq, and_then_ret, and_then_printf, lines_per_col_eq _ _ hcols,
      and_then_of_val _ _ _ h1, c_mod_pos _ _ hL, ite_printf, ite_printf_mk]
    simp only [List.filterMap_append, filterMap_ite_singleton, h5, Out.voltage_cells, printf,
      List.filterMap_cons, List.filterMap_nil, ite_self, List.nil_append, List.append_nil]

/-! ## Footnotes that do not fit the buffer -/

theorem footnote_diagnostics_nil (d : String) (m : Nat) : footnote_diagnostics d m [] = [] :=
  rfl

theorem footnote_diagnostics_cons (d : String) (m : Nat) (t : String) (rest : List String) :
    footnote_diagnostics d m (t :: rest)
      = (if sizeof_tmp ≤ (footnote_text d (m + 1) t).length then
          [Err.footnote_truncated (m + 1) d ((footnote_text d (m + 1) t).length : Int)
            sizeof_tmp]
        else []) ++ footnote_diagnostics d (m + 1) rest := by
  simp only [footnote_diagnostics, List.enumFrom_cons, List.filterMap_cons]
  split_ifs <;> rfl

theorem board_note_err (d : String) (note : Option String) (m : Nat) (s : String) :
    (board_note d note m s).err = footnote_diagnostics d m note.toList := by
  cases note with
  | none => simp [board_note, Run.ret, footnote_diagnostics_nil, printf, Run.and_then]
  | some t =>
    simp only [board_note, run_bind_eq, run_pure_eq, and_then_printf, and_then_fprintf,
      and_then_ret, Option.toList, footnote_diagnostics_cons, footnote_diagnostics_nil,
      List.append_nil, snprintf]
    have h0 : ¬((footnote_text d (m + 1) t).length : Int) < 0 := by omega
    by_cases h : sizeof_tmp ≤ (footnote_text d (m + 1) t).length
    · have h1 : ((footnote_text d (m + 1) t).length : Int) ≥ (sizeof_tmp : Int) := by
        exact_mod_cast h
      simp [h, h1, Run.ret]
    · have h1 : ¬((footnote_text d (m + 1) t).length : Int) ≥ (sizeof_tmp : Int) := by
        intro h2; exact h (by exact_mod_cast h2)
      simp [h, h1, h0, Run.ret]

theorem boards_loop_err (T : test_state_tags) (b : board_match_table) (d : String) (L : Nat)
    (hL : 0 < L) (bs : List board_info) :
    ∀ (i : Nat) (prev : Option board_info) (color : Bool) (m : Nat) (s : String),
      (boards_loop T b d L bs i prev color m s).err
        = footnote_diagnostics d m (notes_of bs) := by
  induction bs with
  | nil =>
    intro i prev color m s
    simp [boards_loop, Run.ret, notes_of, footnote_diagnostics_nil]
  | cons bd rest ih =>
    intro i prev color m s
    simp only [boards_loop, c_mod_pos _ _ hL, run_bind_eq, run_pure_eq, and_then_ret,
      and_then_printf, ite_printf, ite_printf_mk,
      and_then_of_val _ _ _ (board_note_val d bd.note m s), board_note_err]
    cases hn : bd.note with
    | none => simp [notes_of, List.filterMap_cons, hn, footnote_diagnostics_nil, ih]
    | some t =>
      simp [notes_of, List.filterMap_cons, hn, footnote_diagnostics_cons,
        footnote_diagnostics_nil, ih]

theorem boards_run_err (T : test_state_tags) (b : board_match_table) (d : String) (cols : Nat)
    (bs : List board_info) (hcols : 1 ≤ cols) :
    (print_supported_boards_wiki_helper T b d cols bs).err
      = footnote_diagnostics d 0 (notes_of bs) := by
  rcases Nat.eq_zero_or_pos bs.length with h0 | hn
  · rw [List.length_eq_zero.1 h0]
    simp only [print_supported_boards_wiki_helper, count_boards, board_counts.boardcount,
      c_div_pos _ _ hcols, c_mod_pos _ _ hcols,
      run_bind_eq, run_pure_eq, and_then_ret, and_then_printf, List.length_nil, Nat.zero_div,
      Nat.zero_mod, Nat.lt_irrefl, if_false, Nat.add_zero, boards_loop, c_mod_zero,
      and_then_stop]
    rfl
  · have hL := ceil_div_pos bs.length cols hn hcols
    obtain ⟨h1, -⟩ := boards_loop_spec T b d (ceil_div bs.length cols) hL bs 0 none true 0 ""
    have h2 := boards_loop_err T b d (ceil_div bs.length cols) hL bs 0 none true 0 ""
    have hc : (count_boards T bs ⟨0, 0, 0⟩).boardcount = bs.length := by
      rw [count_boards_boardcount]; simp [board_counts.boardcount]
    simp only [print_supported_boards_wiki_helper, hc, c_div_pos _ _ hcols,
      c_mod_pos _ _ hcols, run_bind_eq, run_pure_eq, and_then_ret, and_then_printf,
      lines_per_col_eq _ _ hcols, and_then_of_val _ _ _ h1, c_mod_pos _ _ hL, ite_printf,
      ite_printf_mk, Nat.zero_add, h2]
    split_ifs <;> simp [printf, Run.ret]

theorem count_boards_congr (T : test_state_tags) (bs bs1 : List board_info)
    (h : List.Forall₂ same_but_note_text bs bs1) :
    ∀ c : board_counts, count_boards T bs c = count_boards T bs1 c := by
  induction h with
  | nil => intro c; rfl
  | cons hx _ ih =>
    intro c
    obtain ⟨-, -, hw, -, -⟩ := hx
    simp only [count_boards, hw, ih]

theorem notes_of_length_congr (bs bs1 : List board_info)
    (h : List.Forall₂ same_but_note_text bs bs1) :
    (notes_of bs).length = (notes_of bs1).length := by
  induction h with
  | nil => rfl
  | @cons x y _ _ hx _ ih =>
    obtain ⟨-, -, -, -, hn⟩ := hx
    cases h1 : x.note <;> cases h2 : y.note <;> simp [h1, h2] at hn <;>
      simp [notes_of, List.filterMap_cons, h1, h2] <;> exact ih

theorem board_color_congr (i : Nat) (color : Bool) (v : String)
    (prev prev1 : Option board_info) :
    prev.map (fun p => p.vendor) = prev1.map (fun p => p.vendor) →
    (match prev with
      | some p => if i > 0 ∧ v ≠ p.vendor then !color else color
      | none => color)
      = (match prev1 with
      | some p => if i > 0 ∧ v ≠ p.vendor then !color else color
      | none => color) := by
  intro hp
  cases prev <;> cases prev1 <;> simp at hp <;> simp [hp]

theorem boards_loop_out_congr (T : test_state_tags) (b : board_match_table) (d : String)
    (L : Nat) (hL : 0 < L) (bs bs1 : List board_info)
    (h : List.Forall₂ same_but_note_text bs bs1) :
    ∀ (i : Nat) (prev prev1 : Option board_info) (color : Bool) (m : Nat) (s s1 : String),
      prev.map (fun p => p.vendor) = prev1.map (fun p => p.vendor) →
      (boards_loop T b d L bs i prev color m s).out
        = (boards_loop T b d L bs1 i prev1 color m s1).out := by
  induction h with
  | nil => intro i prev prev1 color m s s1 _; simp [boards_loop, Run.ret]
  | @cons x y _ _ hx _ ih =>
    intro i prev prev1 color m s s1 hp
    obtain ⟨hv, hname, hw, hu, hn⟩ := hx
    have hnext : Option.map (fun p => p.vendor) (some x)
        = Option.map (fun p => p.vendor) (some y) := by simp [hv]
    simp only [boards_loop, c_mod_pos _ _ hL, run_bind_eq, run_pure_eq, and_then_ret,
      and_then_printf, ite_printf, ite_printf_mk,
      and_then_of_val _ _ _ (board_note_val d x.note m s),
      and_then_of_val _ _ _ (board_note_val d y.note m s1), board_note_out]
    rw [hv, hname, hw, hu, board_color_congr i color y.vendor prev prev1 hp]
    cases h1 : x.note with
    | none =>
      cases h2 : y.note with
      | none =>
        simp only [List.cons_append, List.nil_append, List.append_assoc]
        rw [ih (i + 1) (some x) (some y) _ _ _ s1 hnext]
      | some t2 => simp [h1, h2] at hn
    | some t1 =>
      cases h2 : y.note with
      | none => simp [h1, h2] at hn
      | some t2 =>
        simp only [List.cons_append, List.nil_append, List.append_assoc]
        rw [ih (i + 1) (some x) (some y) _ _ _
          (strcat_realloc s1 (snprintf sizeof_tmp (footnote_text d (m + 1) t2)).1) hnext]

theorem boards_report_congr (T : test_state_tags) (b : board_match_table) (d : String)
    (cols : Nat) (hcols : 1 ≤ cols) (bs bs1 : List board_info)
    (h : List.Forall₂ same_but_note_text bs bs1) :
    (print_supported_boards_wiki_helper T b d cols bs).val
        = (print_supported_boards_wiki_helper T b d cols bs1).val
    ∧ report_without_notes (print_supported_boards_wiki_helper T b d cols bs).out
        = report_without_notes (print_supported_boards_wiki_helper T b d cols bs1).out := by
  have hlen := h.length_eq
  have hfil : ∀ (c : Prop) [Decidable c] (t : String),
      List.filter (fun o => o.notes_text.isNone) (if c then [Out.notes_block t] else [])
        = [] := by
    intro c _ t
    split_ifs <;> simp [Out.notes_text]
  rcases Nat.eq_zero_or_pos bs.length with h0 | hn
  · have e1 : bs = [] := List.length_eq_zero.1 h0
    have e2 : bs1 = [] := List.length_eq_zero.1 (hlen ▸ h0)
    rw [e1, e2]
    exact ⟨rfl, rfl⟩
  · have hL := ceil_div_pos bs.length cols hn hcols
    obtain ⟨r1, r2⟩ := boards_run_out T b d cols bs hcols hn
    obtain ⟨q1, q2⟩ := boards_run_out T b d cols bs1 hcols (hlen ▸ hn)
    refine ⟨by rw [r1, q1], ?_⟩
    rw [r2, q2, ← hlen, count_boards_congr T bs bs1 h,
      boards_loop_out_congr T b d _ hL bs bs1 h 0 none none true 0 "" "" rfl]
    simp only [report_without_notes, List.filter_cons, List.filter_append, hfil]

/-! ## Statements about the device printers -/

/-- C11: for every programmer table, the output of `print_supported_devs_wiki` is the
PCI section, the USB section and the table of other programmers, in this order; the
header of the PCI section carries the sum, over the entries of type `PCI`, of the
numbers of device records before the terminator (`vendor_id == 0`), the rows between the
header and the closing of the section consist of device-row items only, and the number
of data rows among them is that sum; the same holds for USB.  A section without devices
has its header with the total 0 and no row at all. -/
theorem device_totals (T : test_state_tags) (programmer_table : List programmer_entry)
    (s : devs_statics) :
    ∃ pci_rows usb_rows others : List Out,
      (print_supported_devs_wiki T programmer_table s).out
        = Out.pci_head (devices_of_type .PCI programmer_table)
          :: (pci_rows ++ Out.devs_end :: Out.usb_head (devices_of_type .USB programmer_table)
            :: (usb_rows ++ Out.devs_end :: Out.other_head :: others))
      ∧ (∀ o ∈ pci_rows, o.is_dev_item = true)
      ∧ (∀ o ∈ usb_rows, o.is_dev_item = true)
      ∧ pci_rows.countP Out.is_dev_row = devices_of_type .PCI programmer_table
      ∧ usb_rows.countP Out.is_dev_row = devices_of_type .USB programmer_table
      ∧ (devices_of_type .PCI programmer_table = 0 → pci_rows = [])
      ∧ (devices_of_type .USB programmer_table = 0 → usb_rows = [])
      ∧ (print_supported_devs_wiki T programmer_table s).val ≠ none := by
  refine ⟨groups_rows T (entries_of_type .PCI programmer_table) s.helper_c,
    groups_rows T (entries_of_type .USB programmer_table)
      (toggled (entries_of_type .PCI programmer_table).length s.helper_c),
    Out.other_th :: (other_rows (noted_others programmer_table) s.other_c ++ [Out.devs_end]),
    ?_, ?_, ?_, ?_, ?_, ?_, ?_, ?_⟩
  · rw [devs_wiki_eq]
  · exact groups_rows_items T _ _
  · exact groups_rows_items T _ _
  · exact countP_groups_rows T _ _ 0
  · exact countP_groups_rows T _ _ 0
  · exact groups_rows_nil T _ _
  · exact groups_rows_nil T _ _
  · rw [devs_wiki_eq]; simp

/-- Witness of C11: a table whose only programmer has no device record before the
terminator gives both sections with their header, the total 0 and no row. -/
theorem device_totals_witness :
    devices_of_type .PCI sample_bare = 0
    ∧ (print_supported_devs_wiki sample_tags sample_bare ⟨false, false⟩).out
      = [Out.pci_head 0, Out.devs_end, Out.usb_head 0, Out.devs_end, Out.other_head,
          Out.other_th, Out.devs_end]
    ∧ ∃ pci_rows usb_rows others : List Out,
      (print_supported_devs_wiki sample_tags sample_bare ⟨false, false⟩).out
        = Out.pci_head (devices_of_type .PCI sample_bare)
          :: (pci_rows ++ Out.devs_end :: Out.usb_head (devices_of_type .USB sample_bare)
            :: (usb_rows ++ Out.devs_end :: Out.other_head :: others))
      ∧ (∀ o ∈ pci_rows, o.is_dev_item = true)
      ∧ (∀ o ∈ usb_rows, o.is_dev_item = true)
      ∧ pci_rows.countP Out.is_dev_row = devices_of_type .PCI sample_bare
      ∧ usb_rows.countP Out.is_dev_row = devices_of_type .USB sample_bare
      ∧ (devices_of_type .PCI sample_bare = 0 → pci_rows = [])
      ∧ (devices_of_type .USB sample_bare = 0 → usb_rows = [])
      ∧ (print_supported_devs_wiki sample_tags sample_bare ⟨false, false⟩).val ≠ none :=
  ⟨by decide, by decide, device_totals sample_tags sample_bare ⟨false, false⟩⟩

/-- C14: for every programmer entry, `print_supported_devs_wiki_helper` renders one row
for every device record before the terminator, `count` rows in all, every row with its
colour line and its data cells; the cell with the programmer name stands in the first
row only, between its colour line and its data cells, and spans `count` rows; an entry
without device records renders nothing. -/
theorem helper_rows (T : test_state_tags) (prog : programmer_entry) (c : Bool) :
    count_supported_devs_wiki prog.dev = (devs_before_sentinel prog.dev).length
    ∧ (print_supported_devs_wiki_helper T prog c).out.countP Out.is_dev_row
        = count_supported_devs_wiki prog.dev
    ∧ (print_supported_devs_wiki_helper T prog c).out.filterMap Out.rowspan
        = (if 0 < count_supported_devs_wiki prog.dev then
            [(count_supported_devs_wiki prog.dev, prog.name)] else [])
    ∧ (∀ (d : dev_entry) (rest : List dev_entry), devs_before_sentinel prog.dev = d :: rest →
        (print_supported_devs_wiki_helper T prog c).out
          = Out.dev_bgcolor (bgcolor_of (!c))
            :: Out.dev_rowspan (count_supported_devs_wiki prog.dev) prog.name
            :: dev_row_of T d
            :: rest.flatMap (fun d => [Out.dev_bgcolor (bgcolor_of (!c)), dev_row_of T d]))
    ∧ (count_supported_devs_wiki prog.dev = 0 →
        (print_supported_devs_wiki_helper T prog c).out = []) := by
  have hcount : count_supported_devs_wiki prog.dev = (devs_before_sentinel prog.dev).length := by
    rw [count_supported_devs_wiki, count_devs_loop_eq]; simp
  rw [helper_eq]
  refine ⟨hcount, ?_, ?_, ?_, ?_⟩
  · rw [hcount]; exact countP_group_rows T _ _ _
  · rw [hcount]
    cases hds : devs_before_sentinel prog.dev with
    | nil => simp [group_rows]
    | cons d rest =>
      have hrest : List.filterMap Out.rowspan
          (rest.flatMap (fun d => [Out.dev_bgcolor (bgcolor_of (!c)), dev_row_of T d])) = [] := by
        rw [List.filterMap_eq_nil_iff]
        intro o ho
        simp only [List.mem_flatMap, List.mem_cons, List.mem_singleton, List.not_mem_nil,
          or_false] at ho
        obtain ⟨x, -, rfl | rfl⟩ := ho <;> rfl
      simp only [group_rows, List.filterMap_cons, Out.rowspan, dev_row_of] at hrest ⊢
      rw [hrest]
      simp
  · intro d rest hds
    simp only [hcount, hds, group_rows, List.length_cons]
  · intro h0
    rw [hcount, List.length_eq_zero] at h0
    simp only [h0, group_rows]

/-- Witness of C14: the first sample programmer has two devices before the terminator
of its table. -/
theorem helper_rows_witness :
    (print_supported_devs_wiki_helper sample_tags
      ⟨"nic", .PCI, [sample_dev 0x10ec "a", sample_dev 0x10ec "b", sample_dev 0 "end",
        sample_dev 0x8086 "behind"], none⟩ false).out
      = [Out.dev_bgcolor "eeeeee", Out.dev_rowspan 2 "nic",
          Out.dev_row "Vendor" "a" 0x10ec 0x0001 "OK",
          Out.dev_bgcolor "eeeeee", Out.dev_row "Vendor" "b" 0x10ec 0x0001 "OK"] :=
  (helper_rows sample_tags ⟨"nic", .PCI, [sample_dev 0x10ec "a", sample_dev 0x10ec "b",
    sample_dev 0 "end", sample_dev 0x8086 "behind"], none⟩ false).2.2.2.1
    (sample_dev 0x10ec "a") [sample_dev 0x10ec "b"] rfl

/-- C13, as amended: in the table of other programmers the rows are the entries of type
`OTHER` that carry a note, in table order, and the colour of a row is keyed on the rank
of its entry among these rendered entries and on the static flag at the start of the
run: the `j`-th rendered entry, counted from 1, has the colour of the flag negated `j`
times, so the flag is negated at every rendered entry, whatever its name, and at no
other entry; with the flag 0 of the program start the first row is `eeeeee`. -/
theorem other_colors_by_rank (T : test_state_tags) (programmer_table : List programmer_entry)
    (s : devs_statics) :
    (print_supported_devs_wiki T programmer_table s).out.filterMap Out.other_cells
      = noted_others programmer_table
    ∧ (print_supported_devs_wiki T programmer_table s).out.filterMap Out.other_color
      = (List.range' 1 (noted_others programmer_table).length).map
          (fun j => bgcolor_of (toggled j s.other_c))
    ∧ (noted_other_indices programmer_table).length = (noted_others programmer_table).length
    ∧ bgcolor_of (toggled 1 false) = "eeeeee" := by
  refine ⟨(devs_wiki_other T programmer_table s).2, (devs_wiki_other T programmer_table s).1,
    ?_, by decide⟩
  unfold noted_other_indices noted_others
  rw [List.length_map]
  generalize 0 = k
  induction programmer_table generalizing k with
  | nil => rfl
  | cons prog rest ih =>
    have ih1 := ih (k + 1)
    simp only [List.enumFrom_cons, List.filter_cons, List.filterMap_cons]
    by_cases h : prog.type = programmer_type.OTHER
    · cases hn : prog.note with
      | none =>
        simp only [h, hn, Option.isSome_none, Bool.false_eq_true, and_false, decide_False,
          if_true, Option.map_none']
        exact ih1
      | some note =>
        simp only [h, hn, Option.isSome_some, and_self, decide_True, if_true,
          Option.map_some', List.length_cons, ih1]
    · simp only [h, false_and, decide_False, if_false]
      exact ih1

/-- C13 as stated fails: in the sample table the rendered entries have the iteration
indices 0 and 2, both even, and the two rows have different colours, so the colour is
no function of the parity of the iteration index. -/
theorem other_color_not_by_index_parity :
    noted_other_indices sample_others = [0, 2]
    ∧ (print_supported_devs_wiki sample_tags sample_others ⟨false, false⟩).out.filterMap
        Out.other_color = ["eeeeee", "dddddd"]
    ∧ ¬∃ g : Nat → String, ∀ p ∈ (noted_other_indices sample_others).zip
        ((print_supported_devs_wiki sample_tags sample_others ⟨false, false⟩).out.filterMap
          Out.other_color), p.2 = g (p.1 % 2) := by
  have h1 : noted_other_indices sample_others = [0, 2] := by decide
  have h2 : (print_supported_devs_wiki sample_tags sample_others ⟨false, false⟩).out.filterMap
      Out.other_color = ["eeeeee", "dddddd"] := by decide
  refine ⟨h1, h2, ?_⟩
  rw [h1, h2]
  rintro ⟨g, hg⟩
  have a := hg (0, "eeeeee") (by simp)
  have b := hg (2, "dddddd") (by simp)
  simp only [Nat.zero_mod, Nat.reduceMod] at a b
  rw [← a] at b
  exact absurd b (by decide)

/-- C17, as amended: the static flag of `print_supported_devs_wiki_helper` is negated
once in every call and never reset; all rows of one programmer carry the colour of the
negated flag.  In a run of `print_supported_devs_wiki` the helper is called for the PCI
entries and then for the USB entries, so the `k`-th of these entries, counted from 0 and
entries without devices included, has the colour of the flag negated `k + 1` times, and
the first USB programmer follows on the last PCI programmer.  The run leaves the flag
negated once for every PCI and USB entry, and the flag of the table of other programmers
negated once for every entry with a note.  Two successive runs on one table write the
same PCI and USB sections exactly when the number of PCI and USB entries is even or no
device row is rendered at all, and the same table of other programmers exactly when the
number of entries of type `OTHER` with a note is even. -/
theorem static_flag_colours (T : test_state_tags) (programmer_table : List programmer_entry)
    (s : devs_statics) :
    (∀ (prog : programmer_entry) (c : Bool),
      (print_supported_devs_wiki_helper T prog c).val = some (!c)
      ∧ (print_supported_devs_wiki_helper T prog c).out.filterMap Out.dev_color
        = List.replicate (count_supported_devs_wiki prog.dev) (bgcolor_of (!c)))
    ∧ device_section (print_supported_devs_wiki T programmer_table s).out
        = Out.pci_head (devices_of_type .PCI programmer_table)
          :: (groups_rows T (entries_of_type .PCI programmer_table) s.helper_c
            ++ Out.devs_end :: Out.usb_head (devices_of_type .USB programmer_table)
              :: (groups_rows T (entries_of_type .USB programmer_table)
                    (toggled (entries_of_type .PCI programmer_table).length s.helper_c)
                ++ [Out.devs_end]))
    ∧ statics_after T programmer_table s
        = ⟨toggled ((entries_of_type .PCI programmer_table).length
              + (entries_of_type .USB programmer_table).length) s.helper_c,
            toggled (noted_others programmer_table).length s.other_c⟩
    ∧ (device_section (print_supported_devs_wiki T programmer_table s).out
          = device_section (print_supported_devs_wiki T programmer_table
              (statics_after T programmer_table s)).out
        ↔ ((entries_of_type .PCI programmer_table).length
              + (entries_of_type .USB programmer_table).length) % 2 = 0
          ∨ devices_of_type .PCI programmer_table + devices_of_type .USB programmer_table = 0)
    ∧ (other_section (print_supported_devs_wiki T programmer_table s).out
          = other_section (print_supported_devs_wiki T programmer_table
              (statics_after T programmer_table s)).out
        ↔ (noted_others programmer_table).length % 2 = 0) := by
  refine ⟨?_, (device_section_eq T programmer_table s).1, statics_after_eq T programmer_table s,
    device_section_two_runs T programmer_table s, other_section_two_runs T programmer_table s⟩
  intro prog c
  have hcount : count_supported_devs_wiki prog.dev = (devs_before_sentinel prog.dev).length := by
    rw [count_supported_devs_wiki, count_devs_loop_eq]; simp
  rw [helper_eq, hcount]
  refine ⟨rfl, ?_⟩
  cases devs_before_sentinel prog.dev with
  | nil => rfl
  | cons d rest =>
    have h : (rest.flatMap (fun d => [Out.dev_bgcolor (bgcolor_of (!c)),
        dev_row_of T d])).filterMap Out.dev_color
        = List.replicate rest.length (bgcolor_of (!c)) := by
      induction rest with
      | nil => rfl
      | cons x xs ih =>
        simp only [List.flatMap_cons, List.filterMap_append, ih, List.length_cons,
          List.replicate_succ]
        simp [Out.dev_color, dev_row_of]
    simp only [group_rows_cons, List.filterMap_cons, Out.dev_color, dev_row_of, List.length_cons,
      List.replicate_succ] at h ⊢
    rw [h]

/-- C17 as stated fails: the sample table has one PCI programmer, without devices, and
no USB programmer, an odd number of entries; the first run leaves the flag of the helper
negated, and yet the second run writes the same PCI and USB sections as the first. -/
theorem two_runs_equal_with_odd_entries :
    ((entries_of_type .PCI sample_bare).length + (entries_of_type .USB sample_bare).length) % 2
      = 1
    ∧ statics_after sample_tags sample_bare ⟨false, false⟩ = ⟨true, false⟩
    ∧ device_section (print_supported_devs_wiki sample_tags sample_bare ⟨false, false⟩).out
      = device_section (print_supported_devs_wiki sample_tags sample_bare
          (statics_after sample_tags sample_bare ⟨false, false⟩)).out := by
  decide

/-! ## More statements about the column layout -/

/-- C18: the text that `print_supported_chips_wiki` formats with "%0.03f" of the
millivolt value divided by 1000 fits the 6-byte buffers `vmin` and `vmax`, terminator
included, if and only if the value is below 10000, and for every value from 0 to 9999,
0 included, the text has exactly 5 characters. -/
theorem voltage_text_fits (mv : Nat) :
    (sprintf_fits sizeof_vmin (fmt_0_03f_milli mv) ↔ mv < 10000)
    ∧ (sprintf_fits sizeof_vmax (fmt_0_03f_milli mv) ↔ mv < 10000)
    ∧ (mv < 10000 → (fmt_0_03f_milli mv).length = 5) := by
  have hlen := fmt_0_03f_milli_length mv
  have key : (fmt_0_03f_milli mv).length + 1 ≤ 6 ↔ mv < 10000 := by
    by_cases h : mv < 10000
    · have h1 := repr_length_one (mv / 1000) (by omega)
      constructor
      · intro _; exact h
      · intro _; omega
    · have h1 := repr_length_ge_two (mv / 1000) (by omega)
      constructor
      · intro h2; omega
      · intro h2; exact absurd h2 h
  refine ⟨key, key, ?_⟩
  intro h
  have h1 := repr_length_one (mv / 1000) (by omega)
  omega

/-- Witness of C18: 2700 millivolts give the five characters of "2.700". -/
theorem voltage_text_fits_witness :
    2700 < 10000 ∧ (fmt_0_03f_milli 2700).length = 5
    ∧ sprintf_fits sizeof_vmin (fmt_0_03f_milli 0)
    ∧ ¬sprintf_fits sizeof_vmin (fmt_0_03f_milli 10000) :=
  ⟨by decide, (voltage_text_fits 2700).2.2 (by decide), by decide, by decide⟩

/-! ## Statements about the footnote buffer -/

/-- C12: with at least one column, `print_supported_boards_wiki_helper` writes to the
error channel exactly one diagnostic for each note whose complete footnote text has at
least 901 characters, the size of `tmp`, carrying the note number, the collection name,
the attempted length and the size, and none for the other notes; it does not stop on a
table with a record; the footnote buffer it prints is the concatenation, note by note, of
the complete text where that has at most 900 characters and of its first 900 characters
otherwise; and the rest of the report and the result are those for any other note texts
on the same records. -/
theorem footnote_truncation (T : test_state_tags) (board_matches : board_match_table)
    (devicetype : String) (cols : Nat) (boards : List board_info) (hcols : 1 ≤ cols) :
    sizeof_tmp = 901
    ∧ (print_supported_boards_wiki_helper T board_matches devicetype cols boards).err
        = footnote_diagnostics devicetype 0 (notes_of boards)
    ∧ (boards ≠ [] →
        (print_supported_boards_wiki_helper T board_matches devicetype cols boards).val
          = some ())
    ∧ (print_supported_boards_wiki_helper T board_matches devicetype cols
          boards).out.filterMap Out.notes_text
        = (if 0 < (notes_of boards).length then
            [String.join (((notes_of boards).enumFrom 1).map (fun p =>
              if (footnote_text devicetype p.1 p.2).length ≤ 900 then
                footnote_text devicetype p.1 p.2
              else String.mk ((footnote_text devicetype p.1 p.2).data.take 900)))]
          else [])
    ∧ (∀ boards1 : List board_info, List.Forall₂ same_but_note_text boards boards1 →
        (print_supported_boards_wiki_helper T board_matches devicetype cols boards).val
          = (print_supported_boards_wiki_helper T board_matches devicetype cols boards1).val
        ∧ report_without_notes
            (print_supported_boards_wiki_helper T board_matches devicetype cols boards).out
          = report_without_notes
            (print_supported_boards_wiki_helper T board_matches devicetype cols
              boards1).out) := by
  refine ⟨rfl, boards_run_err T board_matches devicetype cols boards hcols, ?_, ?_, ?_⟩
  · intro hne
    have hn : 1 ≤ boards.length := by
      rcases Nat.eq_zero_or_pos boards.length with h0 | h1
      · exact absurd (List.length_eq_zero.1 h0) hne
      · exact h1
    exact (boards_run_out T board_matches devicetype cols boards hcols hn).1
  · rw [boards_out_notes_text T board_matches devicetype cols hcols boards]
    simp only [footnote_blocks, snprintf_tmp, Nat.zero_add]
  · intro boards1 h
    exact boards_report_congr T board_matches devicetype cols hcols boards boards1 h

/-- Witness of C12: of the three sample boards in two columns the first has a note of
1000 characters, whose footnote text of 1084 characters is reported once and cut to 900
characters, followed by the 95 characters of the second footnote; the run returns and
the rest of the report is that of the boards with a short first note. -/
theorem footnote_truncation_witness :
    1 ≤ 2
    ∧ ((print_supported_boards_wiki_helper sample_tags sample_matches "boards" 2
        sample_long_boards).err.map Err.render
      = ["Footnote text #1 of boards truncated (ret=1084, sizeof(tmp)=901)\n"])
    ∧ (print_supported_boards_wiki_helper sample_tags sample_matches "boards" 2
        sample_long_boards).val = some ()
    ∧ ((print_supported_boards_wiki_helper sample_tags sample_matches "boards" 2
        sample_long_boards).out.filterMap Out.notes_text).map String.length = [900 + 95]
    ∧ report_without_notes (print_supported_boards_wiki_helper sample_tags sample_matches
        "boards" 2 sample_long_boards).out
      = report_without_notes (print_supported_boards_wiki_helper sample_tags sample_matches
        "boards" 2 sample_short_boards).out :=
  ⟨by decide,
    by
      rw [(footnote_truncation sample_tags sample_matches "boards" 2 sample_long_boards
        (by decide)).2.1]
      decide,
    (footnote_truncation sample_tags sample_matches "boards" 2 sample_long_boards
      (by decide)).2.2.1 (by decide),
    by decide,
    ((footnote_truncation sample_tags sample_matches "boards" 2 sample_long_boards
      (by decide)).2.2.2.2 sample_short_boards (by decide)).2⟩

end PrintWiki
